import Mathlib

/-!
Shallow embedding of the preference-inference and content-adaptation pipeline of
the repository (files `src/backend/utils/advanced_preference_parser.py`,
`src/backend/utils/response_adaptation_engine.py`,
`src/backend/utils/advanced_edge_case_handler.py`), together with theorems
settling the specification claims about it.

Python strings are modelled as `List Char`; Python floats as `ℚ` (exact
arithmetic); Python ints as `ℤ`/`ℕ`.  Substring tests (`x in s`) are
`occursIn`; `str.lower` is modelled on the ASCII range.
-/

namespace TheNZT

/-! ### Basic character and list-of-character utilities -/

/-- ASCII whitespace, matching the characters `str.strip` / `\s` act on. -/
def wsB (c : Char) : Bool :=
  c = ' ' || c = '\t' || c = '\n' || c = '\r' || c = '\x0b' || c = '\x0c'

/-- ASCII lower-case table. -/
def lowerPairs : List (Char × Char) :=
  [('A', 'a'), ('B', 'b'), ('C', 'c'), ('D', 'd'), ('E', 'e'), ('F', 'f'),
   ('G', 'g'), ('H', 'h'), ('I', 'i'), ('J', 'j'), ('K', 'k'), ('L', 'l'),
   ('M', 'm'), ('N', 'n'), ('O', 'o'), ('P', 'p'), ('Q', 'q'), ('R', 'r'),
   ('S', 's'), ('T', 't'), ('U', 'u'), ('V', 'v'), ('W', 'w'), ('X', 'x'),
   ('Y', 'y'), ('Z', 'z')]

/-- `str.lower`, modelled on the ASCII range. -/
def lowerC (c : Char) : Char :=
  ((lowerPairs.find? (fun p => p.1 = c)).map Prod.snd).getD c

def lowerL (l : List Char) : List Char := l.map lowerC

/-- Python substring test `p in t`. -/
def occursIn (p : List Char) : List Char → Bool
  | [] => p.isEmpty
  | c :: t => p.isPrefixOf (c :: t) || occursIn p t

/-- Left strip: drop leading whitespace. -/
def trimLeft (l : List Char) : List Char := l.dropWhile wsB

/-- Right strip: drop trailing whitespace. -/
def trimRight (l : List Char) : List Char := (l.reverse.dropWhile wsB).reverse

/-- Python `str.strip()`. -/
def stripL (l : List Char) : List Char := trimRight (trimLeft l)

/-- Helper for `collapseL`: the flag records whether the previous character
was whitespace (so the run's single space was already emitted). -/
def collapseAux : Bool → List Char → List Char
  | _, [] => []
  | prev, c :: t =>
    if wsB c then
      (if prev then collapseAux true t else ' ' :: collapseAux true t)
    else c :: collapseAux false t

/-- Python `re.sub(r'\s+', ' ', text)`: each whitespace run becomes one space. -/
def collapseL (l : List Char) : List Char := collapseAux false l

/-- Helper for `replaceL`: a positive first argument skips the remaining
characters of a matched pattern occurrence. -/
def replaceAux (pat rep : List Char) : ℕ → List Char → List Char
  | _, [] => []
  | Nat.succ k, _ :: t => replaceAux pat rep k t
  | 0, c :: t =>
    if pat.isPrefixOf (c :: t) then rep ++ replaceAux pat rep (pat.length - 1) t
    else c :: replaceAux pat rep 0 t

/-- Python `str.replace(pat, rep)`: non-overlapping left-to-right replacement
(the patterns used in the source are all non-empty). -/
def replaceL (pat rep l : List Char) : List Char := replaceAux pat rep 0 l

/-- Helper for `splitOnSep`, with the same skip-counter device. -/
def splitSepAux (sep : List Char) : ℕ → List Char → List Char → List (List Char)
  | _, acc, [] => [acc.reverse]
  | Nat.succ k, acc, _ :: t => splitSepAux sep k acc t
  | 0, acc, c :: t =>
    if sep.isPrefixOf (c :: t) then
      acc.reverse :: splitSepAux sep (sep.length - 1) [] t
    else
      splitSepAux sep 0 (c :: acc) t

/-- Python `text.split(sep)` for a non-empty separator. -/
def splitOnSep (sep l : List Char) : List (List Char) := splitSepAux sep 0 [] l

/-- Python `sep.join(parts)`. -/
def joinSep (sep : List Char) : List (List Char) → List Char
  | [] => []
  | [x] => x
  | x :: y :: rest => x ++ sep ++ joinSep sep (y :: rest)

/-- Helper for `wsWords`, accumulating the current word reversed. -/
def wsWordsAux : List Char → List Char → List (List Char)
  | acc, [] => if acc.isEmpty then [] else [acc.reverse]
  | acc, c :: t =>
    if wsB c then
      (if acc.isEmpty then wsWordsAux [] t else acc.reverse :: wsWordsAux [] t)
    else wsWordsAux (c :: acc) t

/-- Python `text.split()` (whitespace words), used for word counts. -/
def wsWords (l : List Char) : List (List Char) := wsWordsAux [] l

/-- `re.search(p + ".*" + q, t)` for literal `p`, `q` on newline-free text:
an occurrence of `p` followed (at or after its end) by an occurrence of `q`. -/
def seqMatch (p q : List Char) : List Char → Bool
  | [] => p.isEmpty && q.isEmpty
  | c :: t => (p.isPrefixOf (c :: t) && occursIn q ((c :: t).drop p.length)) || seqMatch p q t

/-! ### Keyword tables of `advanced_preference_parser.py` -/

def apos : Char := Char.ofNat 39

def primaryVisual : List (List Char) :=
  ["chart", "charts", "graph", "graphs", "visual", "visuals",
   "diagram", "diagrams", "plot", "plots", "visualization",
   "visualizations", "infographic", "infographics"].map String.data

def secondaryVisual : List (List Char) :=
  ["show", "display", "see", "look", "watch", "view", "picture",
   "image", "graphic", "graphics", "dashboard", "pie chart",
   "bar chart", "line graph", "scatter plot"].map String.data

def contextVisual : List (List Char) :=
  ["prefer charts", "like graphs", "visual data", "show me charts",
   "data visualization", "graphical representation", "visual format",
   "chart format", "graph form", "visual display", "pictorial",
   "visual learner", "see data", "visual representation"].map String.data

def indicatorsVisual : List (List Char) :=
  ["prefer", "like", "want", "need", "love", "enjoy", "favor",
   "better with", "easier with", "clearer with", "understand better"].map String.data

def primaryText : List (List Char) :=
  ["text", "explanation", "explanations", "detail", "details",
   "description", "descriptions", "analysis", "breakdown",
   "summary", "summaries", "narrative", "written"].map String.data

def secondaryText : List (List Char) :=
  ["explain", "describe", "elaborate", "discuss", "analyze",
   "tell", "write", "read", "understand", "comprehensive",
   "thorough", "detailed", "in-depth", "step-by-step"].map String.data

def contextText : List (List Char) :=
  ["detailed explanations", "text format", "written analysis",
   "comprehensive breakdown", "thorough explanation", "in detail",
   "step by step", "text-based", "descriptive analysis",
   "narrative format", "written summary", "textual information"].map String.data

def indicatorsText : List (List Char) :=
  ["prefer", "like", "want", "need", "love", "enjoy", "favor",
   "better with", "easier with", "clearer with", "understand better"].map String.data

def negationWords : List (List Char) :=
  ["not".data, "don".data ++ [apos, 't'], "doesn".data ++ [apos, 't'],
   "won".data ++ [apos, 't'], "can".data ++ [apos, 't'],
   "shouldn".data ++ [apos, 't'], "wouldn".data ++ [apos, 't'],
   "no".data, "never".data, "none".data, "neither".data, "nor".data,
   "without".data, "avoid".data, "dislike".data, "hate".data,
   "against".data, "opposite".data, "instead of".data, "rather than".data]

def intensityHigh : List (List Char) :=
  ["always", "definitely", "absolutely", "certainly", "strongly",
   "really", "very", "extremely"].map String.data

def intensityMedium : List (List Char) :=
  ["usually", "often", "generally", "typically", "mostly", "prefer", "like"].map String.data

def intensityLow : List (List Char) :=
  ["sometimes", "occasionally", "maybe", "perhaps", "might", "could", "somewhat"].map String.data

/-- The abbreviation table of `_clean_input`, in Python dict insertion order. -/
def abbrevPairs : List (List Char × List Char) :=
  [("viz", "visualization"), ("vis", "visual"), ("imgs", "images"),
   ("pics", "pictures"), ("info", "information"), ("desc", "description"),
   ("expl", "explanation")].map (fun p => (p.1.data, p.2.data))

/-! ### `_clean_input` -/

def replaceChain (l : List Char) : List Char :=
  abbrevPairs.foldl (fun acc p => replaceL p.1 p.2 acc) l

/-- `_clean_input`: lowercase, strip, collapse whitespace, expand abbreviations. -/
def cleanL (l : List Char) : List Char :=
  replaceChain (collapseL (stripL (lowerL l)))

/-! ### Scoring (`_analyze_keywords`, `_analyze_context_phrases`,
`_analyze_sentiment`, `_analyze_intensity`, `_check_negations`) -/

/-- Sum of `w` over all table entries occurring in `c` (one loop of
`_analyze_keywords` / `_analyze_context_phrases`). -/
def hitScore (tbl : List (List Char)) (w : ℕ) (c : List Char) : ℕ :=
  (tbl.map (fun kw => if occursIn kw c then w else 0)).sum

def kwVisualScore (c : List Char) : ℕ :=
  hitScore primaryVisual 3 c + hitScore secondaryVisual 2 c

def kwTextScore (c : List Char) : ℕ :=
  hitScore primaryText 3 c + hitScore secondaryText 2 c

def phraseVisualScore (c : List Char) : ℕ := hitScore contextVisual 4 c

def phraseTextScore (c : List Char) : ℕ := hitScore contextText 4 c

/-- Matched keywords, primary hits first, as collected in `found_keywords`. -/
def foundIn (tbl : List (List Char)) (c : List Char) : List (List Char) :=
  tbl.filter (fun kw => occursIn kw c)

def foundVisual (c : List Char) : List (List Char) :=
  foundIn primaryVisual c ++ foundIn secondaryVisual c

def foundText (c : List Char) : List (List Char) :=
  foundIn primaryText c ++ foundIn secondaryText c

/-- One `(indicator, keyword)` pair of `_analyze_sentiment`:
`re.search(indicator.*keyword|keyword.*indicator, text)`. -/
def pairIndicated (ind kw c : List Char) : Bool :=
  seqMatch ind kw c || seqMatch kw ind c

def countPairs (inds kws : List (List Char)) (c : List Char) : ℕ :=
  (inds.map (fun ind => (kws.map (fun kw => if pairIndicated ind kw c then 1 else 0)).sum)).sum

/-- `positive_indicators` length: pairs over the visual block then the text block. -/
def posCount (c : List Char) : ℕ :=
  countPairs indicatorsVisual primaryVisual c + countPairs indicatorsText primaryText c

/-- `negative_indicators` is assigned `[]` in `_analyze_sentiment` and never extended. -/
def negIndicatorCount (_c : List Char) : ℕ := 0

/-- `sentiment_strength = len(positive_indicators) - len(negative_indicators)`. -/
def sentStrength (c : List Char) : ℤ :=
  (posCount c : ℤ) - (negIndicatorCount c : ℤ)

/-- `_analyze_intensity` score: +3 per high modifier, +2 per medium, +1 per low. -/
def intensityScore (c : List Char) : ℕ :=
  hitScore intensityHigh 3 c + hitScore intensityMedium 2 c + hitScore intensityLow 1 c

def intensityLevel (c : List Char) : String :=
  if 6 ≤ intensityScore c then "high"
  else if 3 ≤ intensityScore c then "medium"
  else "low"

/-- The `intensity_multiplier` table of `_combine_analyses`. -/
def intensityMultOf (lvl : String) : ℚ :=
  if lvl = "high" then 3/2 else if lvl = "medium" then 1 else 7/10

def intensityMult (c : List Char) : ℚ := intensityMultOf (intensityLevel c)

/-- `_check_negations`: some negation word occurs as a substring. -/
def hasNeg (c : List Char) : Bool :=
  negationWords.any (fun w => occursIn w c)

/-! ### `_combine_analyses` -/

/-- Raw visual score before multipliers:
`keyword + phrase + (sentiment_strength if positive)`. -/
def rawVisual (c : List Char) : ℤ :=
  (kwVisualScore c : ℤ) + (phraseVisualScore c : ℤ) +
    (if 0 < sentStrength c then sentStrength c else 0)

/-- Raw text score before multipliers:
`keyword + phrase + (|sentiment_strength| if negative)`. -/
def rawText (c : List Char) : ℤ :=
  (kwTextScore c : ℤ) + (phraseTextScore c : ℤ) +
    (if sentStrength c < 0 then |sentStrength c| else 0)

/-- The visual score after the intensity multiplier and the negation
swap-and-dampen step of `_combine_analyses`. -/
def visualAdjusted (c : List Char) : ℚ :=
  if hasNeg c then ((rawText c : ℚ) * intensityMult c) * (4/5)
  else (rawVisual c : ℚ) * intensityMult c

/-- The text score after the intensity multiplier and the negation
swap-and-dampen step of `_combine_analyses`. -/
def textAdjusted (c : List Char) : ℚ :=
  if hasNeg c then ((rawVisual c : ℚ) * intensityMult c) * (4/5)
  else (rawText c : ℚ) * intensityMult c

/-- Python `round(q)` (banker's rounding, half to even). -/
def halfEven (q : ℚ) : ℤ :=
  if q - ⌊q⌋ < 1/2 then ⌊q⌋
  else if 1/2 < q - ⌊q⌋ then ⌊q⌋ + 1
  else if Even ⌊q⌋ then ⌊q⌋ else ⌊q⌋ + 1

/-- Python `round(q, n)`. -/
def pyRound (n : ℕ) (q : ℚ) : ℚ := (halfEven (q * 10 ^ n) : ℚ) / 10 ^ n

/-- The preference/confidence decision block of `_combine_analyses`
(lines 326-338 of the source), before the 2-digit rounding of the
returned confidence. -/
def prefDecision (c : List Char) : String × ℚ :=
  if visualAdjusted c + textAdjusted c = 0 then ("unclear", 0)
  else if |visualAdjusted c - textAdjusted c| < 2 then
    ("mixed", min (4/5) ((visualAdjusted c + textAdjusted c) / 10))
  else if textAdjusted c < visualAdjusted c then
    ("visual", min 1 (visualAdjusted c / max (visualAdjusted c + textAdjusted c) 10))
  else
    ("text", min 1 (textAdjusted c / max (visualAdjusted c + textAdjusted c) 10))

/-! ### `parse_user_preference` -/

/-- The fields of the dictionary returned by `parse_user_preference` that the
claims refer to (the free-text `reasoning` and the regex-extracted
`specific_requests` carry no claim content and are not modelled). -/
structure PrefResult where
  preference : String
  confidence : ℚ
  keywordsVisual : List (List Char)
  keywordsText : List (List Char)
  intensity : String
  fallbackPreference : String
  visualScoreMeta : ℚ
  textScoreMeta : ℚ
  totalKeywords : ℕ
  hasNegations : Bool
  intensityScoreMeta : ℕ
  inputLength : ℕ
deriving DecidableEq, Repr

/-- `_create_empty_response`. -/
def emptyResponse : PrefResult :=
  ⟨"unclear", 0, [], [], "low", "mixed", 0, 0, 0, false, 0, 0⟩

/-- `parse_user_preference` (the parsing-history bookkeeping, which does not
influence the returned value, is not modelled). -/
def parseUserPreference (s : String) : PrefResult :=
  if stripL s.data = [] then emptyResponse
  else
    ⟨(prefDecision (cleanL s.data)).1,
     pyRound 2 (prefDecision (cleanL s.data)).2,
     foundVisual (cleanL s.data), foundText (cleanL s.data),
     intensityLevel (cleanL s.data),
     (if (prefDecision (cleanL s.data)).1 = "unclear" then "mixed"
      else (prefDecision (cleanL s.data)).1),
     pyRound 2 (visualAdjusted (cleanL s.data)),
     pyRound 2 (textAdjusted (cleanL s.data)),
     (foundVisual (cleanL s.data)).length + (foundText (cleanL s.data)).length,
     hasNeg (cleanL s.data), intensityScore (cleanL s.data),
     (cleanL s.data).length⟩

/-! ### Supporting lemmas: whitespace, stripping, cleaning -/

theorem wsB_lowerC (c : Char) : wsB (lowerC c) = wsB c := by
  unfold lowerC
  rcases hf : lowerPairs.find? (fun p => p.1 = c) with _ | p
  · rw [hf]
    rfl
  · have h1 : p.1 = c := by simpa using List.find?_some hf
    have h3 : wsB p.2 = wsB p.1 :=
      (by decide : ∀ q ∈ lowerPairs, wsB q.2 = wsB q.1) p (List.mem_of_find?_eq_some hf)
    rw [hf]
    simp [h3, h1]

theorem trimLeft_eq_nil_iff (l : List Char) :
    trimLeft l = [] ↔ ∀ c ∈ l, wsB c = true := by
  simp [trimLeft, List.dropWhile_eq_nil_iff]

theorem trimRight_eq_nil_iff (l : List Char) :
    trimRight l = [] ↔ ∀ c ∈ l, wsB c = true := by
  simp [trimRight, List.dropWhile_eq_nil_iff]

theorem stripL_eq_nil_iff (l : List Char) :
    stripL l = [] ↔ ∀ c ∈ l, wsB c = true := by
  unfold stripL trimLeft
  rw [trimRight_eq_nil_iff]
  constructor
  · intro h c hc
    have hm : c ∈ l.takeWhile wsB ++ l.dropWhile wsB := by
      rw [List.takeWhile_append_dropWhile]
      exact hc
    rcases List.mem_append.mp hm with h1 | h2
    · exact List.mem_takeWhile_imp h1
    · exact h c h2
  · intro h c hc
    exact h c ((l.dropWhile_sublist wsB).subset hc)

theorem stripL_lowerL_eq_nil (l : List Char) (h : stripL l = []) :
    stripL (lowerL l) = [] := by
  rw [stripL_eq_nil_iff] at h ⊢
  intro c hc
  rcases List.mem_map.mp hc with ⟨d, hd, rfl⟩
  rw [wsB_lowerC]
  exact h d hd

theorem replaceL_nil (pat rep : List Char) : replaceL pat rep [] = [] := rfl

theorem replaceChain_nil : replaceChain [] = [] := by decide

theorem cleanL_of_strip_nil (l : List Char) (h : stripL l = []) : cleanL l = [] := by
  unfold cleanL
  rw [stripL_lowerL_eq_nil l h]
  exact replaceChain_nil

/-! ### Decomposition of the adjusted axis scores -/

theorem sentStrength_eq (c : List Char) : sentStrength c = (posCount c : ℤ) := by
  simp [sentStrength, negIndicatorCount]

theorem rawVisual_eq (c : List Char) :
    rawVisual c = ((kwVisualScore c + phraseVisualScore c + posCount c : ℕ) : ℤ) := by
  unfold rawVisual
  rw [sentStrength_eq]
  rcases Nat.eq_zero_or_pos (posCount c) with h | h
  · simp [h]
  · rw [if_pos (by exact_mod_cast h)]
    push_cast
    ring

theorem rawText_eq (c : List Char) :
    rawText c = ((kwTextScore c + phraseTextScore c : ℕ) : ℤ) := by
  unfold rawText
  rw [sentStrength_eq]
  rw [if_neg (not_lt.mpr (Int.natCast_nonneg _))]
  push_cast
  ring

/-- Natural-number core of the adjusted visual score (the text raw score when
negations swap the axes, the visual raw score otherwise). -/
def visNat (c : List Char) : ℕ :=
  if hasNeg c then kwTextScore c + phraseTextScore c
  else kwVisualScore c + phraseVisualScore c + posCount c

/-- Natural-number core of the adjusted text score. -/
def textNat (c : List Char) : ℕ :=
  if hasNeg c then kwVisualScore c + phraseVisualScore c + posCount c
  else kwTextScore c + phraseTextScore c

/-- The common positive factor of both adjusted scores: intensity multiplier,
dampened by `0.8` when negations are present. -/
def adjFactor (c : List Char) : ℚ :=
  if hasNeg c then intensityMult c * (4/5) else intensityMult c

theorem visualAdjusted_eq (c : List Char) :
    visualAdjusted c = (visNat c : ℚ) * adjFactor c := by
  unfold visualAdjusted visNat adjFactor
  by_cases h : hasNeg c
  · rw [if_pos h, if_pos h, if_pos h, rawText_eq]
    push_cast
    ring
  · rw [if_neg h, if_neg h, if_neg h, rawVisual_eq]
    push_cast
    ring

theorem textAdjusted_eq (c : List Char) :
    textAdjusted c = (textNat c : ℚ) * adjFactor c := by
  unfold textAdjusted textNat adjFactor
  by_cases h : hasNeg c
  · rw [if_pos h, if_pos h, if_pos h, rawVisual_eq]
    push_cast
    ring
  · rw [if_neg h, if_neg h, if_neg h, rawText_eq]
    push_cast
    ring

theorem intensityMult_ge (c : List Char) : (7/10 : ℚ) ≤ intensityMult c := by
  unfold intensityMult intensityMultOf
  split_ifs <;> norm_num

theorem adjFactor_ge (c : List Char) : (14/25 : ℚ) ≤ adjFactor c := by
  have h := intensityMult_ge c
  unfold adjFactor
  split_ifs <;> linarith

theorem adjFactor_pos (c : List Char) : (0 : ℚ) < adjFactor c :=
  lt_of_lt_of_le (by norm_num) (adjFactor_ge c)

theorem visualAdjusted_nonneg (c : List Char) : (0 : ℚ) ≤ visualAdjusted c := by
  rw [visualAdjusted_eq]
  exact mul_nonneg (Nat.cast_nonneg _) (le_of_lt (adjFactor_pos c))

theorem textAdjusted_nonneg (c : List Char) : (0 : ℚ) ≤ textAdjusted c := by
  rw [textAdjusted_eq]
  exact mul_nonneg (Nat.cast_nonneg _) (le_of_lt (adjFactor_pos c))

/-- When some evidence is present, every branch of the decision block other
than `unclear` yields a pre-rounding confidence of at least `0.056`. -/
theorem prefDecision_cases (c : List Char) :
    prefDecision c = ("unclear", 0) ∨ (7/125 : ℚ) ≤ (prefDecision c).2 := by
  have hvf := visualAdjusted_eq c
  have htf := textAdjusted_eq c
  have hfac := adjFactor_ge c
  have hv0 := visualAdjusted_nonneg c
  have ht0 := textAdjusted_nonneg c
  unfold prefDecision
  by_cases h0 : visualAdjusted c + textAdjusted c = 0
  · rw [if_pos h0]
    exact Or.inl rfl
  rw [if_neg h0]
  right
  have htot : (14/25 : ℚ) ≤ visualAdjusted c + textAdjusted c := by
    have hN : 1 ≤ visNat c + textNat c := by
      by_contra hN
      push_neg at hN
      have h1 : visNat c = 0 := by omega
      have h2 : textNat c = 0 := by omega
      rw [hvf, htf, h1, h2] at h0
      simp at h0
    have : ((1 : ℕ) : ℚ) * (14/25) ≤ ((visNat c + textNat c : ℕ) : ℚ) * adjFactor c :=
      mul_le_mul (by exact_mod_cast hN) hfac (by norm_num) (Nat.cast_nonneg _)
    rw [hvf, htf]
    push_cast at this ⊢
    linarith
  split_ifs with h1 h2
  · show (7/125 : ℚ) ≤ min (4/5) ((visualAdjusted c + textAdjusted c) / 10)
    apply le_min (by norm_num)
    linarith
  · show (7/125 : ℚ) ≤ min 1 (visualAdjusted c / max (visualAdjusted c + textAdjusted c) 10)
    have hvpos : (0 : ℚ) < visualAdjusted c := lt_of_le_of_lt ht0 h2
    have hvN : 1 ≤ visNat c := by
      by_contra hvN
      push_neg at hvN
      have h3 : visNat c = 0 := by omega
      rw [hvf, h3] at hvpos
      simp at hvpos
    have hv14 : (14/25 : ℚ) ≤ visualAdjusted c := by
      have : ((1 : ℕ) : ℚ) * (14/25) ≤ ((visNat c : ℕ) : ℚ) * adjFactor c :=
        mul_le_mul (by exact_mod_cast hvN) hfac (by norm_num) (Nat.cast_nonneg _)
      rw [hvf]
      push_cast at this ⊢
      linarith
    apply le_min (by norm_num)
    rcases le_or_lt (visualAdjusted c + textAdjusted c) 10 with hle | hgt
    · rw [max_eq_right hle]
      linarith
    · rw [max_eq_left (le_of_lt hgt)]
      rw [le_div_iff₀ (by linarith)]
      linarith
  · show (7/125 : ℚ) ≤ min 1 (textAdjusted c / max (visualAdjusted c + textAdjusted c) 10)
    have hvt : visualAdjusted c ≤ textAdjusted c := not_lt.mp h2
    have htpos : (0 : ℚ) < textAdjusted c := by
      rcases lt_or_eq_of_le ht0 with h | h
      · exact h
      · exfalso
        apply h0
        have : visualAdjusted c = 0 := le_antisymm (by linarith) hv0
        linarith
    have htN : 1 ≤ textNat c := by
      by_contra htN
      push_neg at htN
      have h3 : textNat c = 0 := by omega
      rw [htf, h3] at htpos
      simp at htpos
    have ht14 : (14/25 : ℚ) ≤ textAdjusted c := by
      have : ((1 : ℕ) : ℚ) * (14/25) ≤ ((textNat c : ℕ) : ℚ) * adjFactor c :=
        mul_le_mul (by exact_mod_cast htN) hfac (by norm_num) (Nat.cast_nonneg _)
      rw [htf]
      push_cast at this ⊢
      linarith
    apply le_min (by norm_num)
    rcases le_or_lt (visualAdjusted c + textAdjusted c) 10 with hle | hgt
    · rw [max_eq_right hle]
      linarith
    · rw [max_eq_left (le_of_lt hgt)]
      rw [le_div_iff₀ (by linarith)]
      linarith

theorem halfEven_ge_floor (q : ℚ) : ⌊q⌋ ≤ halfEven q := by
  unfold halfEven
  split_ifs <;> omega

theorem pyRound_pos (q : ℚ) (h : (7/125 : ℚ) ≤ q) : 0 < pyRound 2 q := by
  unfold pyRound
  have h1 : (5 : ℤ) ≤ ⌊q * 10 ^ 2⌋ := by
    rw [Int.le_floor]
    push_cast
    nlinarith
  have h2 := halfEven_ge_floor (q * 10 ^ 2)
  apply div_pos _ (by norm_num)
  exact_mod_cast lt_of_lt_of_le (by norm_num : (0 : ℤ) < 5) (le_trans h1 h2)

/-! ### Claim C3 -/

/-- C3: `parse_user_preference` is a total function of its input (it is a Lean
function, so it returns on every string without raising); whenever the returned
confidence is `0` the returned preference is `"unclear"`; and
empty/whitespace-only input yields preference `"unclear"`, confidence `0`, and
empty keyword evidence on both axes. -/
theorem c3_parse_totality (s : String) :
    ((parseUserPreference s).confidence = 0 →
      (parseUserPreference s).preference = "unclear") ∧
    (stripL s.data = [] →
      (parseUserPreference s).preference = "unclear" ∧
      (parseUserPreference s).confidence = 0 ∧
      (parseUserPreference s).keywordsVisual = [] ∧
      (parseUserPreference s).keywordsText = []) := by
  unfold parseUserPreference
  by_cases h : stripL s.data = []
  · rw [if_pos h]
    exact ⟨fun _ => rfl, fun _ => ⟨rfl, rfl, rfl, rfl⟩⟩
  · rw [if_neg h]
    refine ⟨?_, fun hh => absurd hh h⟩
    intro hc
    simp only at hc ⊢
    rcases prefDecision_cases (cleanL s.data) with hd | hd
    · rw [hd]
    · exfalso
      have hpos := pyRound_pos _ hd
      rw [hc] at hpos
      exact lt_irrefl 0 hpos

/-- Witness for C3 at the whitespace-only input `"   "` (both hypotheses are
discharged there: its confidence is `0` and its strip is empty). -/
theorem c3_parse_totality_witness :
    (parseUserPreference "   ").preference = "unclear" ∧
    (parseUserPreference "   ").confidence = 0 ∧
    (parseUserPreference "   ").keywordsVisual = [] ∧
    (parseUserPreference "   ").keywordsText = [] := by
  refine ⟨(c3_parse_totality "   ").1 (by with_unfolding_all decide),
    ((c3_parse_totality "   ").2 (by decide)).2⟩

/-! ### Claim C5 -/

/-- C5: on every input, the final classification follows the claimed decision
rule over the combined (intensity- and negation-adjusted) axis scores: zero
total evidence gives `"unclear"` with confidence `0`; an absolute axis gap
below `2` gives `"mixed"` with confidence `min 0.8 (total/10)`; otherwise the
larger axis wins with confidence `min 1 (winning / max total 10)`.  The
returned confidence field carries the Python `round(·, 2)` of that value. -/
theorem c5_decision_rule (s : String) :
    (parseUserPreference s).preference =
      (if visualAdjusted (cleanL s.data) + textAdjusted (cleanL s.data) = 0 then "unclear"
       else if |visualAdjusted (cleanL s.data) - textAdjusted (cleanL s.data)| < 2 then "mixed"
       else if textAdjusted (cleanL s.data) < visualAdjusted (cleanL s.data) then "visual"
       else "text") ∧
    (parseUserPreference s).confidence =
      pyRound 2
        (if visualAdjusted (cleanL s.data) + textAdjusted (cleanL s.data) = 0 then 0
         else if |visualAdjusted (cleanL s.data) - textAdjusted (cleanL s.data)| < 2 then
           min (4/5) ((visualAdjusted (cleanL s.data) + textAdjusted (cleanL s.data)) / 10)
         else
           min 1 (max (visualAdjusted (cleanL s.data)) (textAdjusted (cleanL s.data)) /
             max (visualAdjusted (cleanL s.data) + textAdjusted (cleanL s.data)) 10)) := by
  by_cases h : stripL s.data = []
  · have hc : cleanL s.data = [] := cleanL_of_strip_nil s.data h
    unfold parseUserPreference
    rw [if_pos h, hc]
    have hv : visualAdjusted [] = 0 := by with_unfolding_all decide
    have ht : textAdjusted [] = 0 := by with_unfolding_all decide
    rw [hv, ht]
    norm_num [emptyResponse]
    with_unfolding_all decide
  · unfold parseUserPreference
    rw [if_neg h]
    simp only
    unfold prefDecision
    split_ifs with h1 h2 h3
    · exact ⟨rfl, rfl⟩
    · exact ⟨rfl, rfl⟩
    · refine ⟨rfl, ?_⟩
      rw [max_eq_left (le_of_lt h3)]
    · refine ⟨rfl, ?_⟩
      rw [max_eq_right (not_lt.mp h3)]

/-! ### Claim C10 -/

/-- C10: the input `"please advise"` contains none of the configured visual
keywords or context phrases even as substrings, yet abbreviation expansion in
`_clean_input` rewrites the `vis` inside `advise`, producing
`"please advisuale"`, which contains the primary keyword `visual`; the parse
therefore returns a nonzero visual score (`2.1`) and preference `"visual"`,
not `"unclear"`. -/
theorem c10_abbrev_false_positive :
    ((primaryVisual ++ secondaryVisual ++ contextVisual).all
      (fun kw => !occursIn kw "please advise".data)) = true ∧
    cleanL "please advise".data = "please advisuale".data ∧
    (parseUserPreference "please advise").preference = "visual" ∧
    (parseUserPreference "please advise").visualScoreMeta = 21/10 ∧
    (parseUserPreference "please advise").confidence = 21/100 := by
  refine ⟨by decide, by decide, ?_, ?_, ?_⟩ <;> with_unfolding_all decide

/-! ### `response_adaptation_engine.py`: data model -/

/-- The `ResponseType` enum. -/
inductive ResponseType where
  | text_analysis
  | chart_data
  | mixed_content
  | raw_data
  | summary
  | detailed_explanation
deriving DecidableEq, Repr

def ResponseType.value : ResponseType → String
  | .text_analysis => "text_analysis"
  | .chart_data => "chart_data"
  | .mixed_content => "mixed_content"
  | .raw_data => "raw_data"
  | .summary => "summary"
  | .detailed_explanation => "detailed_explanation"

/-- The `AdaptationRule` dataclass. -/
structure AdaptationRule where
  preference_type : String
  content_type : ResponseType
  priority_boost : ℤ
  size_multiplier : ℚ
  position_preference : String
  visibility_threshold : ℚ
deriving DecidableEq, Repr

/-- Values stored in the free-form `metadata` dictionaries. -/
inductive MVal where
  | b (x : Bool)
  | i (x : ℤ)
  | q (x : ℚ)
  | s (x : List Char)
  | ar (r : AdaptationRule)
deriving DecidableEq, Repr

/-- A Python dictionary used as a metadata bag (insertion-ordered key/value
pairs; `set` models `{**m, k: v}`, `get` models `m.get(k)`). -/
structure MetaBag where
  entries : List (String × MVal)
deriving DecidableEq, Repr

def MetaBag.get (m : MetaBag) (k : String) : Option MVal :=
  (m.entries.find? (fun p => p.1 = k)).map Prod.snd

def MetaBag.set (m : MetaBag) (k : String) (v : MVal) : MetaBag :=
  if m.entries.any (fun p => p.1 = k) then
    ⟨m.entries.map (fun p => if p.1 = k then (k, v) else p)⟩
  else ⟨m.entries ++ [(k, v)]⟩

def MetaBag.setMany : MetaBag → List (String × MVal) → MetaBag
  | m, [] => m
  | m, kv :: rest => MetaBag.setMany (m.set kv.1 kv.2) rest

/-- The `ContentBlock` dataclass. -/
structure ContentBlock where
  content_type : ResponseType
  content : List Char
  priority : ℤ
  size_weight : ℚ
  metadata : MetaBag
deriving DecidableEq, Repr

/-- Python `int(q)`: truncation toward zero. -/
def pyInt (q : ℚ) : ℤ := if q < 0 then -⌊-q⌋ else ⌊q⌋

/-- `_initialize_adaptation_rules`. -/
def defaultAdaptationRules : List AdaptationRule :=
  [⟨"visual", .chart_data, 3, 3/2, "top", 4/5⟩,
   ⟨"visual", .summary, 2, 6/5, "top", 9/10⟩,
   ⟨"visual", .text_analysis, -1, 4/5, "bottom", 3/5⟩,
   ⟨"text", .detailed_explanation, 3, 7/5, "top", 9/10⟩,
   ⟨"text", .summary, 2, 6/5, "top", 4/5⟩,
   ⟨"text", .chart_data, -2, 7/10, "bottom", 2/5⟩,
   ⟨"mixed", .mixed_content, 1, 1, "middle", 7/10⟩,
   ⟨"mixed", .summary, 2, 11/10, "top", 4/5⟩]

/-- `_find_matching_rule`: first an exact `(preference, content type)` match,
then a fallback to the first rule with the same preference type. -/
def findMatchingRule (rules : List AdaptationRule) (ct : ResponseType) (pref : String) :
    Option AdaptationRule :=
  match rules.find? (fun r => decide (r.preference_type = pref ∧ r.content_type = ct)) with
  | some r => some r
  | none => rules.find? (fun r => decide (r.preference_type = pref))

/-! ### Content transforms (`_adapt_block_content` and helpers) -/

/-- `_make_text_scannable`. -/
def makeTextScannable (text : List Char) : List Char :=
  if 3 < (splitOnSep ". ".data text).length then
    "Key points:\n".data ++
    (((splitOnSep ". ".data text).take 3).map
      (fun sn => if (stripL sn).isEmpty then [] else "â€¢ ".data ++ stripL sn ++ "\n".data)).flatten ++
    "\nDetails: ".data ++ joinSep ". ".data ((splitOnSep ". ".data text).drop 3)
  else text

/-- `_add_chart_description` prepends a textual description when the chart
JSON parses, and returns the content unchanged when `json.loads` raises.  JSON
parsing is not modelled (no claim depends on the transformed value), so the
embedding keeps only the fallback branch. -/
def addChartDescription (content : List Char) : List Char := content

/-- `_add_connective_elements`. -/
def addConnectiveElements (content : List Char) : List Char :=
  if 200 < content.length then "Overview: ".data ++ content else content

/-- `_adapt_block_content`. -/
def adaptBlockContent (content : List Char) (pref : String) (rule : AdaptationRule) :
    List Char :=
  if pref = "visual" ∧ rule.content_type = .text_analysis then makeTextScannable content
  else if pref = "text" ∧ rule.content_type = .chart_data then addChartDescription content
  else if pref = "mixed" then addConnectiveElements content
  else content

/-- The intensity multiplier table of `_adapt_single_block`
(`.get(intensity, 1.0)`). -/
def engIntensityMult (intensity : String) : ℚ :=
  if intensity = "high" then 13/10
  else if intensity = "medium" then 1
  else if intensity = "low" then 7/10
  else 1

/-- `_adapt_single_block`. -/
def adaptSingleBlock (rules : List AdaptationRule) (block : ContentBlock)
    (pref : String) (conf : ℚ) (intensity : String) : ContentBlock :=
  match findMatchingRule rules block.content_type pref with
  | none => block
  | some rule =>
    ⟨block.content_type,
     adaptBlockContent block.content pref rule,
     max 1 (min 10
       (pyInt ((pyInt (((block.priority + rule.priority_boost : ℤ) : ℚ) *
           (1/2 + conf * (1/2))) : ℚ) * engIntensityMult intensity))),
     max (1/10) (min 3
       (block.size_weight * rule.size_multiplier * (1/2 + conf * (1/2)) *
         engIntensityMult intensity)),
     block.metadata.setMany
       [("adapted", .b true),
        ("original_priority", .i block.priority),
        ("original_size_weight", .q block.size_weight),
        ("adaptation_rule", .ar rule),
        ("confidence_applied", .q conf),
        ("intensity_applied", .s intensity.data)]⟩

/-! ### Decomposition (`_parse_response_content` and helpers) -/

/-- A chart payload as consumed by `_parse_chart_content`: `raw` stands for
`json.dumps(data)`, `isDict` for `isinstance(data, dict)`. -/
structure Chart where
  isDict : Bool
  dataLen : ℕ
  interactive : Bool
  raw : List Char
deriving DecidableEq, Repr

/-- A raw-data payload as consumed by `_parse_data_content`: `isStructured`
stands for `isinstance(data_content, (list, dict))`, `raw` for
`json.dumps(data_content, indent=2)`, `strLen` for `len(str(data_content))`. -/
structure DataPayload where
  isStructured : Bool
  typeName : List Char
  strLen : ℕ
  raw : List Char
deriving DecidableEq, Repr

/-- The shape of the `original_response` dictionary: optional `text_response`,
`chart_data`, `data` and `summary` keys; `rawDump` stands for
`json.dumps(response)` used by the mixed-content fallback block. -/
structure OrigResponse where
  text_response : Option (List Char)
  chart_data : Option (List (List Char × Chart))
  data : Option DataPayload
  summary : Option (List Char)
  rawDump : List Char
deriving DecidableEq, Repr

/-- Scanner for `re.split(r'\n\n+|\n={3,}|\n-{3,}', text)`: a positive first
argument skips the remaining characters of a matched delimiter run. -/
def splitSecSkip : ℕ → List Char → List Char → List (List Char)
  | Nat.succ k, acc, _ :: t => splitSecSkip k acc t
  | _, acc, [] => [acc.reverse]
  | 0, acc, c :: t =>
    if c = '\n' then
      if 1 ≤ (t.takeWhile (fun d => d = '\n')).length then
        acc.reverse :: splitSecSkip (t.takeWhile (fun d => d = '\n')).length [] t
      else if 3 ≤ (t.takeWhile (fun d => d = '=')).length then
        acc.reverse :: splitSecSkip (t.takeWhile (fun d => d = '=')).length [] t
      else if 3 ≤ (t.takeWhile (fun d => d = '-')).length then
        acc.reverse :: splitSecSkip (t.takeWhile (fun d => d = '-')).length [] t
      else splitSecSkip 0 (c :: acc) t
    else splitSecSkip 0 (c :: acc) t

def splitSections (l : List Char) : List (List Char) := splitSecSkip 0 [] l

/-- `re.search(r'\d+.*%', text)`: a digit with a `%` later on the same line. -/
def digitPercentAt : List Char → Bool
  | [] => false
  | c :: t => (c.isDigit && (t.takeWhile (fun d => d ≠ '\n')).contains '%') || digitPercentAt t

/-- `re.search(r'\$\d+', text)`: a dollar sign directly followed by a digit. -/
def dollarDigitAt : List Char → Bool
  | [] => false
  | [_] => false
  | c :: d :: t => (c = '$' && d.isDigit) || dollarDigitAt (d :: t)

/-- The regex alternation of `_analyze_text_type`'s third test (on the raw,
non-lowered text, as in the source). -/
def textAnalysisRegex (t : List Char) : Bool :=
  digitPercentAt t || dollarDigitAt t ||
    occursIn "statistics".data t || occursIn "data shows".data t

/-- `_analyze_text_type`. -/
def analyzeTextType (text : List Char) : ResponseType :=
  if ["summary", "conclusion", "overview", "tldr"].any
      (fun w => occursIn w.data (lowerL text)) then .summary
  else if ["detailed", "comprehensive", "step-by-step", "analysis"].any
      (fun w => occursIn w.data (lowerL text)) then .detailed_explanation
  else if textAnalysisRegex text then .text_analysis
  else .mixed_content

def technicalIndicators : List (List Char) :=
  ["algorithm", "implementation", "configuration", "optimization",
   "parameter", "variable", "function", "method", "API", "database",
   "framework", "library", "dependency", "architecture", "protocol"].map String.data

/-- `_has_technical_terms` (note: the source checks the entries, including the
upper-case `"API"`, against the lowered text). -/
def hasTechnicalTerms (text : List Char) : Bool :=
  technicalIndicators.any (fun w => occursIn w (lowerL text))

/-- `re.search(r'\d+', text)`. -/
def hasNumbers (text : List Char) : Bool := text.any Char.isDigit

/-- One nonempty section of `_parse_text_content` at enumeration index `i`. -/
def mkTextBlock (sec : List Char) (i : ℕ) : ContentBlock :=
  ⟨analyzeTextType sec, stripL sec,
   min 10 (max 1 (8 - (i : ℤ)) +
     (if occursIn "summary".data (lowerL sec) || occursIn "conclusion".data (lowerL sec) then 2
      else if occursIn "introduction".data (lowerL sec) || occursIn "overview".data (lowerL sec)
      then 1 else 0)),
   (sec.length : ℚ) / 1000,
   ⟨[("section_index", .i (i : ℤ)),
     ("word_count", .i ((wsWords sec).length : ℤ)),
     ("has_numbers", .b (hasNumbers sec)),
     ("has_technical_terms", .b (hasTechnicalTerms sec))]⟩⟩

def textBlocksGo : List (List Char) → ℕ → List ContentBlock
  | [], _ => []
  | sec :: rest, i =>
    if (stripL sec).isEmpty then textBlocksGo rest (i + 1)
    else mkTextBlock sec i :: textBlocksGo rest (i + 1)

/-- `_parse_text_content`. -/
def parseTextContent (text : List Char) : List ContentBlock :=
  textBlocksGo (splitSections text) 0

/-- `_parse_chart_content`. -/
def parseChartContent (chart_data : List (List Char × Chart)) : List ContentBlock :=
  chart_data.map (fun p =>
    ⟨.chart_data, p.2.raw, 7, 3/2,
     ⟨[("chart_type", .s p.1),
       ("data_points", .i (if p.2.isDict then (p.2.dataLen : ℤ) else 0)),
       ("interactive", .b (p.2.isDict && p.2.interactive))]⟩⟩)

/-- `_parse_data_content`. -/
def parseDataContent (d : DataPayload) : List ContentBlock :=
  if d.isStructured then
    [⟨.raw_data, d.raw, 4, 1,
      ⟨[("data_type", .s d.typeName),
        ("size", .i (d.strLen : ℤ)),
        ("structured", .b d.isStructured)]⟩⟩]
  else []

/-- `_parse_summary_content`. -/
def parseSummaryContent (sm : List Char) : List ContentBlock :=
  [⟨.summary, sm, 8, 4/5,
    ⟨[("word_count", .i ((wsWords sm).length : ℤ)),
      ("has_bullet_points", .b (occursIn "â€¢".data sm || occursIn "*".data sm)),
      ("has_numbers", .b (hasNumbers sm))]⟩⟩]

/-- `_parse_response_content`. -/
def parseResponseContent (resp : OrigResponse) : List ContentBlock :=
  if ((match resp.text_response with | some t => parseTextContent t | none => []) ++
      (match resp.chart_data with | some cd => parseChartContent cd | none => []) ++
      (match resp.data with | some d => parseDataContent d | none => []) ++
      (match resp.summary with | some sm => parseSummaryContent sm | none => [])).isEmpty
  then
    [⟨.mixed_content, resp.rawDump, 5, 1, ⟨[("original_structure", .b true)]⟩⟩]
  else
    (match resp.text_response with | some t => parseTextContent t | none => []) ++
    (match resp.chart_data with | some cd => parseChartContent cd | none => []) ++
    (match resp.data with | some d => parseDataContent d | none => []) ++
    (match resp.summary with | some sm => parseSummaryContent sm | none => [])

/-! ### Reordering (`_reorder_content`) -/

/-- `x.metadata.get("section_index", 0)`. -/
def sectionIndexOf (b : ContentBlock) : ℤ :=
  match b.metadata.get "section_index" with
  | some (.i n) => n
  | _ => 0

/-- The sort key for visual preference. -/
def visualKey (b : ContentBlock) : ℤ × ℤ × ℤ × ℤ :=
  (-b.priority, if b.content_type = .chart_data then 0 else 1,
   if b.content_type = .summary then 0 else 1, sectionIndexOf b)

/-- The sort key for text preference. -/
def textKey (b : ContentBlock) : ℤ × ℤ × ℤ × ℤ :=
  (-b.priority, if b.content_type = .summary then 0 else 1,
   if b.content_type = .detailed_explanation then 0 else 1,
   if b.content_type = .chart_data then 1 else 0)

/-- The sort key for mixed preference. -/
def mixedKey (b : ContentBlock) : ℤ × ℤ :=
  (-b.priority, sectionIndexOf b)

/-- Lexicographic comparison of 4-tuples (Python tuple ordering). -/
def lexLe4 (x y : ℤ × ℤ × ℤ × ℤ) : Bool :=
  decide (x.1 < y.1 ∨ (x.1 = y.1 ∧ (x.2.1 < y.2.1 ∨ (x.2.1 = y.2.1 ∧
    (x.2.2.1 < y.2.2.1 ∨ (x.2.2.1 = y.2.2.1 ∧ x.2.2.2 ≤ y.2.2.2))))))

/-- Lexicographic comparison of pairs. -/
def lexLe2 (x y : ℤ × ℤ) : Bool :=
  decide (x.1 < y.1 ∨ (x.1 = y.1 ∧ x.2 ≤ y.2))

/-- `_reorder_content`: a stable sort by the preference-specific key
(Python `list.sort` is stable; `List.mergeSort` is the stable Lean analogue). -/
def reorderContent (blocks : List ContentBlock) (pref : String) : List ContentBlock :=
  if pref = "visual" then blocks.mergeSort (fun a b => lexLe4 (visualKey a) (visualKey b))
  else if pref = "text" then blocks.mergeSort (fun a b => lexLe4 (textKey a) (textKey b))
  else blocks.mergeSort (fun a b => lexLe2 (mixedKey a) (mixedKey b))

/-! ### Response construction and engine state -/

/-- The user-preference dictionary fields read by the engine. -/
structure UserPrefs where
  preference : String
  confidence : ℚ
  intensity : String
deriving DecidableEq, Repr

/-- One entry of the `adapted_content` output list. -/
structure BlockData where
  position : ℕ
  content_type : String
  content : List Char
  priority : ℤ
  size_weight : ℚ
  metadata : MetaBag
deriving DecidableEq, Repr

/-- `_generate_adaptation_metadata` output (timestamps are `ℚ` instants
supplied by the caller, standing for `datetime.now()`). -/
structure AdaptationMetadata where
  adaptation_timestamp : ℚ
  processing_time_seconds : ℚ
  user_preference : String
  confidence_score : ℚ
  intensity_level : String
  rules_applied : ℕ
  original_structure_preserved : Bool
  adaptation_version : String
  fallback_used : Bool
deriving DecidableEq, Repr

/-- The adapted-response dictionary (`passthrough` stands for the original
response keys copied over by `_construct_adapted_response`). -/
structure AdaptedResponse where
  adapted_content : List BlockData
  content_order : List String
  preference_applied : String
  confidence_level : ℚ
  total_blocks : ℕ
  passthrough : OrigResponse
  adaptation_metadata : AdaptationMetadata
deriving DecidableEq, Repr

def blockDataOf (i : ℕ) (b : ContentBlock) : BlockData :=
  ⟨i + 1, b.content_type.value, b.content, b.priority, b.size_weight, b.metadata⟩

/-- `_construct_adapted_response`. -/
def constructAdaptedResponse (blocks : List ContentBlock) (orig : OrigResponse)
    (prefs : UserPrefs) (meta : AdaptationMetadata) : AdaptedResponse :=
  ⟨blocks.enum.map (fun p => blockDataOf p.1 p.2),
   blocks.map (fun b => b.content_type.value),
   prefs.preference, prefs.confidence, blocks.length, orig, meta⟩

structure PerformanceMetrics where
  total_adaptations : ℕ
  visual_preference_adaptations : ℕ
  text_preference_adaptations : ℕ
  mixed_preference_adaptations : ℕ
  average_adaptation_time : ℚ
deriving DecidableEq, Repr

structure HistEntry where
  timestamp : ℚ
  original_content_blocks : ℕ
  adapted_content_blocks : ℕ
  preference_type : String
  confidence : ℚ
  intensity : String
  processing_time : ℚ
deriving DecidableEq, Repr

/-- The engine's mutable state: the rule table fixed at construction plus the
bookkeeping state (`adaptation_history`, `performance_metrics`). -/
structure Engine where
  adaptation_rules : List AdaptationRule
  adaptation_history : List HistEntry
  performance_metrics : PerformanceMetrics
deriving DecidableEq, Repr

def initEngine : Engine := ⟨defaultAdaptationRules, [], ⟨0, 0, 0, 0, 0⟩⟩

/-- `_update_performance_metrics`. -/
def updatePerformanceMetrics (m : PerformanceMetrics) (pref : String) (ptime : ℚ) :
    PerformanceMetrics :=
  ⟨m.total_adaptations + 1,
   m.visual_preference_adaptations + (if pref = "visual" then 1 else 0),
   m.text_preference_adaptations + (if pref = "text" then 1 else 0),
   m.mixed_preference_adaptations + (if pref ≠ "visual" ∧ pref ≠ "text" then 1 else 0),
   pyRound 4 ((m.average_adaptation_time * ((m.total_adaptations + 1 : ℕ) - 1 : ℚ) + ptime) /
     ((m.total_adaptations + 1 : ℕ) : ℚ))⟩

/-- `adapt_response` (the two `ℚ` arguments are the start and end instants of
the call, standing for the `datetime.now()` reads; the original response has
no `adapted_content` key, so the history entry records one original block). -/
def adaptResponse (e : Engine) (t0 t1 : ℚ) (orig : OrigResponse) (prefs : UserPrefs) :
    AdaptedResponse × Engine :=
  (constructAdaptedResponse
     (reorderContent
       ((parseResponseContent orig).map
         (fun b => adaptSingleBlock e.adaptation_rules b prefs.preference prefs.confidence
           prefs.intensity))
       prefs.preference)
     orig prefs
     ⟨t1, pyRound 3 (t1 - t0), prefs.preference, prefs.confidence, prefs.intensity,
      e.adaptation_rules.length, true, "2.0", false⟩,
   ⟨e.adaptation_rules,
    (fun h : List HistEntry => if 100 < h.length then h.drop (h.length - 100) else h)
      (e.adaptation_history ++
        [⟨t1, 1,
          (reorderContent
            ((parseResponseContent orig).map
              (fun b => adaptSingleBlock e.adaptation_rules b prefs.preference prefs.confidence
                prefs.intensity))
            prefs.preference).length,
          prefs.preference, prefs.confidence, prefs.intensity, pyRound 3 (t1 - t0)⟩]),
    updatePerformanceMetrics e.performance_metrics prefs.preference (t1 - t0)⟩)

/-! ### Metadata-bag lemmas -/

theorem find?_append_none {α : Type} (l₁ l₂ : List α) (p : α → Bool)
    (h : l₁.find? p = none) : (l₁ ++ l₂).find? p = l₂.find? p := by
  induction l₁ with
  | nil => rfl
  | cons a l ih =>
    rw [List.find?_cons] at h
    rcases hpa : p a with _ | _
    · rw [hpa] at h
      simp only at h
      rw [List.cons_append, List.find?_cons, hpa]
      exact ih h
    · rw [hpa] at h
      simp at h

theorem find?_append_some {α : Type} (l₁ l₂ : List α) (p : α → Bool) (a : α)
    (h : l₁.find? p = some a) : (l₁ ++ l₂).find? p = some a := by
  induction l₁ with
  | nil => simp at h
  | cons b l ih =>
    rw [List.find?_cons] at h
    rcases hpb : p b with _ | _
    · rw [hpb] at h
      simp only at h
      rw [List.cons_append, List.find?_cons, hpb]
      exact ih h
    · rw [hpb] at h
      simp only at h
      rw [List.cons_append, List.find?_cons, hpb]
      exact h

theorem findRepSame (l : List (String × MVal)) (k : String) (v : MVal)
    (h : l.any (fun p => decide (p.1 = k)) = true) :
    (l.map (fun p => if p.1 = k then (k, v) else p)).find? (fun p => decide (p.1 = k)) =
      some (k, v) := by
  induction l with
  | nil => simp at h
  | cons p l ih =>
    by_cases hp : p.1 = k
    · simp [List.find?_cons, hp]
    · have h' : l.any (fun q => decide (q.1 = k)) = true := by
        simpa [hp] using h
      simp [List.find?_cons, hp, ih h']

theorem findRepNe (l : List (String × MVal)) (k k' : String) (v : MVal) (h : ¬ k' = k) :
    (l.map (fun p => if p.1 = k' then (k', v) else p)).find? (fun p => decide (p.1 = k)) =
      l.find? (fun p => decide (p.1 = k)) := by
  induction l with
  | nil => rfl
  | cons p l ih =>
    by_cases hp : p.1 = k'
    · simp [List.find?_cons, hp, h, ih]
    · simp only [List.map_cons, List.find?_cons, if_neg hp]
      rw [ih]

theorem metaGet_set_same (m : MetaBag) (k : String) (v : MVal) :
    (m.set k v).get k = some v := by
  unfold MetaBag.set MetaBag.get
  by_cases h : m.entries.any (fun p => decide (p.1 = k))
  · rw [if_pos h]
    simp [findRepSame m.entries k v h]
  · rw [if_neg h]
    simp only
    have hnone : m.entries.find? (fun p => decide (p.1 = k)) = none := by
      rw [List.find?_eq_none]
      intro a ha hak
      exact h (List.any_eq_true.mpr ⟨a, ha, hak⟩)
    rw [find?_append_none _ _ _ hnone]
    simp [List.find?_cons]

theorem metaGet_set_ne (m : MetaBag) (k k' : String) (v : MVal) (h : ¬ k' = k) :
    (m.set k' v).get k = m.get k := by
  unfold MetaBag.set MetaBag.get
  by_cases ha : m.entries.any (fun p => decide (p.1 = k'))
  · rw [if_pos ha]
    simp only
    rw [findRepNe m.entries k k' v h]
  · rw [if_neg ha]
    simp only
    cases hl : m.entries.find? (fun p => decide (p.1 = k)) with
    | some a => rw [find?_append_some _ _ _ _ hl]
    | none =>
      rw [find?_append_none _ _ _ hl]
      simp [List.find?_cons, h]

/-- The metadata written by `_adapt_single_block`, as one list. -/
def adaptMetaItems (pr : ℤ) (sw : ℚ) (rule : AdaptationRule) (conf : ℚ)
    (intensity : String) : List (String × MVal) :=
  [("adapted", .b true), ("original_priority", .i pr), ("original_size_weight", .q sw),
   ("adaptation_rule", .ar rule), ("confidence_applied", .q conf),
   ("intensity_applied", .s intensity.data)]

theorem adaptMeta_get_adapted (m : MetaBag) (pr : ℤ) (sw : ℚ) (rule : AdaptationRule)
    (conf : ℚ) (intensity : String) :
    (m.setMany (adaptMetaItems pr sw rule conf intensity)).get "adapted" = some (.b true) := by
  simp only [adaptMetaItems, MetaBag.setMany]
  rw [metaGet_set_ne _ _ _ _ (by decide), metaGet_set_ne _ _ _ _ (by decide),
      metaGet_set_ne _ _ _ _ (by decide), metaGet_set_ne _ _ _ _ (by decide),
      metaGet_set_ne _ _ _ _ (by decide)]
  exact metaGet_set_same _ _ _

theorem adaptMeta_get_origPriority (m : MetaBag) (pr : ℤ) (sw : ℚ) (rule : AdaptationRule)
    (conf : ℚ) (intensity : String) :
    (m.setMany (adaptMetaItems pr sw rule conf intensity)).get "original_priority" =
      some (.i pr) := by
  simp only [adaptMetaItems, MetaBag.setMany]
  rw [metaGet_set_ne _ _ _ _ (by decide), metaGet_set_ne _ _ _ _ (by decide),
      metaGet_set_ne _ _ _ _ (by decide), metaGet_set_ne _ _ _ _ (by decide)]
  exact metaGet_set_same _ _ _

theorem adaptMeta_get_origSize (m : MetaBag) (pr : ℤ) (sw : ℚ) (rule : AdaptationRule)
    (conf : ℚ) (intensity : String) :
    (m.setMany (adaptMetaItems pr sw rule conf intensity)).get "original_size_weight" =
      some (.q sw) := by
  simp only [adaptMetaItems, MetaBag.setMany]
  rw [metaGet_set_ne _ _ _ _ (by decide), metaGet_set_ne _ _ _ _ (by decide),
      metaGet_set_ne _ _ _ _ (by decide)]
  exact metaGet_set_same _ _ _

/-- Restatement of `_adapt_single_block`'s rule branch through
`adaptMetaItems` (proved, not assumed, so the metadata lemmas apply). -/
theorem adaptSingleBlock_some (rules : List AdaptationRule) (block : ContentBlock)
    (pref : String) (conf : ℚ) (intensity : String) (rule : AdaptationRule)
    (h : findMatchingRule rules block.content_type pref = some rule) :
    adaptSingleBlock rules block pref conf intensity =
      ⟨block.content_type,
       adaptBlockContent block.content pref rule,
       max 1 (min 10
         (pyInt ((pyInt (((block.priority + rule.priority_boost : ℤ) : ℚ) *
             (1/2 + conf * (1/2))) : ℚ) * engIntensityMult intensity))),
       max (1/10) (min 3
         (block.size_weight * rule.size_multiplier * (1/2 + conf * (1/2)) *
           engIntensityMult intensity)),
       block.metadata.setMany
         (adaptMetaItems block.priority block.size_weight rule conf intensity)⟩ := by
  unfold adaptSingleBlock
  rw [h]
  rfl

/-! ### Claim C1 -/

/-- C1 (amended): when no adaptation rule with the signal's preference class
exists at all (for example class `"unclear"`), `_adapt_single_block` returns
the block unchanged.  (When only the exact `(class, content_type)` rule is
missing but some rule with the class exists, the fallback in
`_find_matching_rule` applies that rule instead — see the counterexample.) -/
theorem c1_no_rule_for_class_passthrough (rules : List AdaptationRule)
    (block : ContentBlock) (pref : String) (conf : ℚ) (intensity : String)
    (h : ∀ r ∈ rules, r.preference_type ≠ pref) :
    adaptSingleBlock rules block pref conf intensity = block := by
  unfold adaptSingleBlock findMatchingRule
  have h1 : rules.find?
      (fun r => decide (r.preference_type = pref ∧ r.content_type = block.content_type)) =
      none := by
    rw [List.find?_eq_none]
    intro r hr
    simp [h r hr]
  have h2 : rules.find? (fun r => decide (r.preference_type = pref)) = none := by
    rw [List.find?_eq_none]
    intro r hr
    simp [h r hr]
  rw [h1, h2]

/-- Witness for C1 (amended) at preference class `"unclear"`, for which the
default table has no rule. -/
theorem c1_no_rule_for_class_passthrough_witness :
    adaptSingleBlock defaultAdaptationRules ⟨.raw_data, "raw".data, 4, 1, ⟨[]⟩⟩
      "unclear" (1/2) "medium" = ⟨.raw_data, "raw".data, 4, 1, ⟨[]⟩⟩ :=
  c1_no_rule_for_class_passthrough defaultAdaptationRules _ "unclear" (1/2) "medium"
    (by decide)

/-- C1 counterexample: no rule has the exact key `(visual, raw_data)`, yet a
raw-data block under a visual signal is modified (its priority becomes `7`)
because `_find_matching_rule` falls back to the first visual rule. -/
theorem c1_fallback_modifies_counterexample :
    (∀ r ∈ defaultAdaptationRules,
      ¬(r.preference_type = "visual" ∧ r.content_type = ResponseType.raw_data)) ∧
    adaptSingleBlock defaultAdaptationRules ⟨.raw_data, "raw".data, 4, 1, ⟨[]⟩⟩
        "visual" 1 "medium" ≠ ⟨.raw_data, "raw".data, 4, 1, ⟨[]⟩⟩ ∧
    (adaptSingleBlock defaultAdaptationRules ⟨.raw_data, "raw".data, 4, 1, ⟨[]⟩⟩
        "visual" 1 "medium").priority = 7 := by
  refine ⟨by decide, ?_, ?_⟩ <;> with_unfolding_all decide

/-! ### Claim C2 -/

/-- C2 (amended): when a matching rule is found, `_adapt_single_block` applies
it irrespective of the signal's confidence — the rule's
`visibility_threshold` is never consulted — so even with confidence strictly
below the threshold the block comes back adapted (marked `adapted = true`,
with its content type preserved). -/
theorem c2_rule_applied_below_threshold (rules : List AdaptationRule)
    (block : ContentBlock) (pref : String) (conf : ℚ) (intensity : String)
    (rule : AdaptationRule)
    (h : findMatchingRule rules block.content_type pref = some rule)
    (_hconf : conf < rule.visibility_threshold) :
    (adaptSingleBlock rules block pref conf intensity).metadata.get "adapted" =
      some (.b true) ∧
    (adaptSingleBlock rules block pref conf intensity).content_type =
      block.content_type := by
  rw [adaptSingleBlock_some rules block pref conf intensity rule h]
  exact ⟨adaptMeta_get_adapted _ _ _ _ _ _, rfl⟩

/-- Witness for C2 (amended): a chart block under a visual signal of
confidence `0`, below the rule's threshold `0.8`. -/
theorem c2_rule_applied_below_threshold_witness :
    (adaptSingleBlock defaultAdaptationRules ⟨.chart_data, "cj".data, 7, 3/2, ⟨[]⟩⟩
      "visual" 0 "medium").metadata.get "adapted" = some (.b true) ∧
    (adaptSingleBlock defaultAdaptationRules ⟨.chart_data, "cj".data, 7, 3/2, ⟨[]⟩⟩
      "visual" 0 "medium").content_type = ResponseType.chart_data :=
  c2_rule_applied_below_threshold defaultAdaptationRules
    ⟨.chart_data, "cj".data, 7, 3/2, ⟨[]⟩⟩ "visual" 0 "medium"
    ⟨"visual", .chart_data, 3, 3/2, "top", 4/5⟩
    (by with_unfolding_all decide) (by norm_num)

/-- C2 counterexample: the `(visual, chart_data)` rule has threshold `0.8`;
with confidence `0 < 0.8` the claim demands an unmodified block, but the code
still applies the boost (the priority drops from `7` to `5` and the block is
marked adapted). -/
theorem c2_threshold_ignored_counterexample :
    (findMatchingRule defaultAdaptationRules ResponseType.chart_data "visual" =
      some ⟨"visual", .chart_data, 3, 3/2, "top", 4/5⟩) ∧
    adaptSingleBlock defaultAdaptationRules ⟨.chart_data, "cj".data, 7, 3/2, ⟨[]⟩⟩
        "visual" 0 "medium" ≠ ⟨.chart_data, "cj".data, 7, 3/2, ⟨[]⟩⟩ ∧
    (adaptSingleBlock defaultAdaptationRules ⟨.chart_data, "cj".data, 7, 3/2, ⟨[]⟩⟩
        "visual" 0 "medium").priority = 5 := by
  refine ⟨by with_unfolding_all decide, ?_, ?_⟩ <;> with_unfolding_all decide

/-! ### Claim C6 -/

theorem mkTextBlock_priority (sec : List Char) (i : ℕ) :
    1 ≤ (mkTextBlock sec i).priority ∧ (mkTextBlock sec i).priority ≤ 10 := by
  unfold mkTextBlock
  simp only
  constructor
  · split_ifs <;> omega
  · split_ifs <;> omega

theorem textBlocksGo_priority (secs : List (List Char)) (i : ℕ) :
    ∀ b ∈ textBlocksGo secs i, 1 ≤ b.priority ∧ b.priority ≤ 10 := by
  induction secs generalizing i with
  | nil =>
    intro b hb
    simp [textBlocksGo] at hb
  | cons sec rest ih =>
    intro b hb
    unfold textBlocksGo at hb
    by_cases hs : (stripL sec).isEmpty
    · rw [if_pos hs] at hb
      exact ih (i + 1) b hb
    · rw [if_neg hs] at hb
      rcases List.mem_cons.mp hb with rfl | hb
      · exact mkTextBlock_priority sec i
      · exact ih (i + 1) b hb

theorem parseResponseContent_priority (resp : OrigResponse) :
    ∀ b ∈ parseResponseContent resp, 1 ≤ b.priority ∧ b.priority ≤ 10 := by
  intro b hb
  unfold parseResponseContent at hb
  split_ifs at hb with h
  · rcases List.mem_singleton.mp hb with rfl
    exact ⟨by norm_num, by norm_num⟩
  · rcases List.mem_append.mp hb with hb3 | hD
    · rcases List.mem_append.mp hb3 with hb2 | hC
      · rcases List.mem_append.mp hb2 with hA | hB
        · cases ht : resp.text_response with
          | none =>
            rw [ht] at hA
            simp at hA
          | some t =>
            rw [ht] at hA
            exact textBlocksGo_priority _ 0 b hA
        · cases hc : resp.chart_data with
          | none =>
            rw [hc] at hB
            simp at hB
          | some cd =>
            rw [hc] at hB
            rcases List.mem_map.mp hB with ⟨p, _, rfl⟩
            exact ⟨by norm_num, by norm_num⟩
      · cases hd : resp.data with
        | none =>
          rw [hd] at hC
          simp at hC
        | some d =>
          rw [hd] at hC
          have hC2 : b ∈ parseDataContent d := hC
          unfold parseDataContent at hC2
          split_ifs at hC2
          · rcases List.mem_singleton.mp hC2 with rfl
            exact ⟨by norm_num, by norm_num⟩
          · simp at hC2
    · cases hsm : resp.summary with
      | none =>
        rw [hsm] at hD
        simp at hD
      | some sm =>
        rw [hsm] at hD
        have hD2 : b ∈ parseSummaryContent sm := hD
        unfold parseSummaryContent at hD2
        rcases List.mem_singleton.mp hD2 with rfl
        exact ⟨by norm_num, by norm_num⟩

theorem clampZ_bounds (x : ℤ) : 1 ≤ max 1 (min 10 x) ∧ max 1 (min 10 x) ≤ 10 := by omega

theorem clampQ_bounds (w : ℚ) :
    (1/10 : ℚ) ≤ max (1/10) (min 3 w) ∧ max (1/10) (min 3 w) ≤ 3 :=
  ⟨le_max_left _ _, max_le (by norm_num) (min_le_left _ _)⟩

/-- C6 (amended): every freshly decomposed block has priority in `1..10`, and
every block to which a matching rule is applied additionally has its priority
clamped to `1..10` and its size weight clamped to `0.1..3.0`.  (The size
weight of freshly decomposed text blocks is `len(section)/1000`, unclamped —
see the counterexample.) -/
theorem c6_bounds :
    (∀ resp : OrigResponse, ∀ b ∈ parseResponseContent resp,
      1 ≤ b.priority ∧ b.priority ≤ 10) ∧
    (∀ (rules : List AdaptationRule) (block : ContentBlock) (pref : String)
       (conf : ℚ) (intensity : String) (rule : AdaptationRule),
      findMatchingRule rules block.content_type pref = some rule →
      (1 ≤ (adaptSingleBlock rules block pref conf intensity).priority ∧
       (adaptSingleBlock rules block pref conf intensity).priority ≤ 10 ∧
       (1/10 : ℚ) ≤ (adaptSingleBlock rules block pref conf intensity).size_weight ∧
       (adaptSingleBlock rules block pref conf intensity).size_weight ≤ 3)) := by
  refine ⟨parseResponseContent_priority, ?_⟩
  intro rules block pref conf intensity rule h
  rw [adaptSingleBlock_some rules block pref conf intensity rule h]
  exact ⟨(clampZ_bounds _).1, (clampZ_bounds _).2, (clampQ_bounds _).1, (clampQ_bounds _).2⟩

def c6Resp : OrigResponse := ⟨some "hi".data, none, none, none, "dump".data⟩

set_option maxRecDepth 8000 in
/-- Witness for C6 at a concrete decomposed block and a concrete adapted
block. -/
theorem c6_bounds_witness :
    (1 ≤ (mkTextBlock "hi".data 0).priority ∧ (mkTextBlock "hi".data 0).priority ≤ 10) ∧
    (1 ≤ (adaptSingleBlock defaultAdaptationRules ⟨.summary, "s".data, 8, 4/5, ⟨[]⟩⟩
        "text" (9/10) "low").priority ∧
     (adaptSingleBlock defaultAdaptationRules ⟨.summary, "s".data, 8, 4/5, ⟨[]⟩⟩
        "text" (9/10) "low").priority ≤ 10 ∧
     (1/10 : ℚ) ≤ (adaptSingleBlock defaultAdaptationRules ⟨.summary, "s".data, 8, 4/5, ⟨[]⟩⟩
        "text" (9/10) "low").size_weight ∧
     (adaptSingleBlock defaultAdaptationRules ⟨.summary, "s".data, 8, 4/5, ⟨[]⟩⟩
        "text" (9/10) "low").size_weight ≤ 3) := by
  constructor
  · exact c6_bounds.1 c6Resp (mkTextBlock "hi".data 0) (by with_unfolding_all decide)
  · exact c6_bounds.2 defaultAdaptationRules ⟨.summary, "s".data, 8, 4/5, ⟨[]⟩⟩
      "text" (9/10) "low" ⟨"text", .summary, 2, 6/5, "top", 4/5⟩
      (by with_unfolding_all decide)

set_option maxRecDepth 8000 in
/-- C6 counterexample: decomposing the two-character answer `"hi"` yields one
block whose size weight is `2/1000 = 0.002`, outside the claimed `0.1..3.0`
range (and it would pass through adaptation unchanged, since no visual rule
matches `mixed_content`). -/
theorem c6_size_weight_counterexample :
    parseResponseContent c6Resp = [mkTextBlock "hi".data 0] ∧
    (mkTextBlock "hi".data 0).size_weight = 1/500 ∧
    ¬((1/10 : ℚ) ≤ (mkTextBlock "hi".data 0).size_weight) := by
  refine ⟨?_, ?_, ?_⟩ <;> with_unfolding_all decide

/-! ### Claim C7 -/

set_option maxHeartbeats 1000000 in
/-- C7 (amended): when a rule applies, `_adapt_single_block` builds a fresh
block: the content type is unchanged and the metadata carries
`adapted = true` together with the input block's original priority and size
weight; the body content, however, is passed through `_adapt_block_content`,
which rewrites it in the `(visual, text_analysis)`, `(text, chart_data)` and
`mixed` cases — outside those cases the body is unchanged. -/
theorem c7_adapted_block_structure (rules : List AdaptationRule) (block : ContentBlock)
    (pref : String) (conf : ℚ) (intensity : String) (rule : AdaptationRule)
    (h : findMatchingRule rules block.content_type pref = some rule) :
    (adaptSingleBlock rules block pref conf intensity).content_type = block.content_type ∧
    (adaptSingleBlock rules block pref conf intensity).metadata.get "adapted" =
      some (.b true) ∧
    (adaptSingleBlock rules block pref conf intensity).metadata.get "original_priority" =
      some (.i block.priority) ∧
    (adaptSingleBlock rules block pref conf intensity).metadata.get "original_size_weight" =
      some (.q block.size_weight) ∧
    (adaptSingleBlock rules block pref conf intensity).content =
      adaptBlockContent block.content pref rule ∧
    (¬(pref = "visual" ∧ rule.content_type = .text_analysis) →
      ¬(pref = "text" ∧ rule.content_type = .chart_data) →
      ¬ pref = "mixed" →
      (adaptSingleBlock rules block pref conf intensity).content = block.content) := by
  rw [adaptSingleBlock_some rules block pref conf intensity rule h]
  refine ⟨rfl, adaptMeta_get_adapted _ _ _ _ _ _, adaptMeta_get_origPriority _ _ _ _ _ _,
    adaptMeta_get_origSize _ _ _ _ _ _, rfl, ?_⟩
  intro h1 h2 h3
  show adaptBlockContent block.content pref rule = block.content
  unfold adaptBlockContent
  rw [if_neg h1, if_neg h2, if_neg h3]

/-- Witness for C7 (amended): a chart block under a visual signal keeps its
content and records the originals. -/
theorem c7_adapted_block_structure_witness :
    (adaptSingleBlock defaultAdaptationRules ⟨.chart_data, "x".data, 7, 3/2, ⟨[]⟩⟩
      "visual" (4/5) "high").content_type = ResponseType.chart_data ∧
    (adaptSingleBlock defaultAdaptationRules ⟨.chart_data, "x".data, 7, 3/2, ⟨[]⟩⟩
      "visual" (4/5) "high").metadata.get "adapted" = some (.b true) ∧
    (adaptSingleBlock defaultAdaptationRules ⟨.chart_data, "x".data, 7, 3/2, ⟨[]⟩⟩
      "visual" (4/5) "high").metadata.get "original_priority" = some (.i 7) ∧
    (adaptSingleBlock defaultAdaptationRules ⟨.chart_data, "x".data, 7, 3/2, ⟨[]⟩⟩
      "visual" (4/5) "high").metadata.get "original_size_weight" = some (.q (3/2)) ∧
    (adaptSingleBlock defaultAdaptationRules ⟨.chart_data, "x".data, 7, 3/2, ⟨[]⟩⟩
      "visual" (4/5) "high").content = "x".data := by
  have h := c7_adapted_block_structure defaultAdaptationRules
    ⟨.chart_data, "x".data, 7, 3/2, ⟨[]⟩⟩ "visual" (4/5) "high"
    ⟨"visual", .chart_data, 3, 3/2, "top", 4/5⟩ (by with_unfolding_all decide)
  exact ⟨h.1, h.2.1, h.2.2.1, h.2.2.2.1, h.2.2.2.2.2 (by decide) (by decide) (by decide)⟩

/-- C7 counterexample: a text-analysis block under a visual signal has its
body rewritten by `_make_text_scannable`, so the body content is not
preserved. -/
theorem c7_content_rewritten_counterexample :
    (adaptSingleBlock defaultAdaptationRules
        ⟨.text_analysis, "a. b. c. d".data, 5, 1, ⟨[]⟩⟩ "visual" 1 "medium").content =
      "Key points:\nâ€¢ a\nâ€¢ b\nâ€¢ c\n\nDetails: d".data ∧
    (adaptSingleBlock defaultAdaptationRules
        ⟨.text_analysis, "a. b. c. d".data, 5, 1, ⟨[]⟩⟩ "visual" 1 "medium").content ≠
      "a. b. c. d".data := by
  constructor <;> with_unfolding_all decide

/-! ### Claim C8 -/

/-- C8: `adapt_response` is deterministic in everything the claim names: the
sequence of output blocks (contents, types, priorities, size weights, order)
is identical across two calls with the same original response and the same
user preferences, regardless of the engine's mutable bookkeeping state
(history, metrics) and of the wall-clock instants of the two calls, provided
both engines carry the same rule table (the table is fixed at construction
and never mutated). -/
theorem c8_determinism (e1 e2 : Engine) (t0 t1 u0 u1 : ℚ) (orig : OrigResponse)
    (prefs : UserPrefs) (h : e1.adaptation_rules = e2.adaptation_rules) :
    (adaptResponse e1 t0 t1 orig prefs).1.adapted_content =
      (adaptResponse e2 u0 u1 orig prefs).1.adapted_content ∧
    (adaptResponse e1 t0 t1 orig prefs).1.content_order =
      (adaptResponse e2 u0 u1 orig prefs).1.content_order := by
  unfold adaptResponse constructAdaptedResponse
  rw [h]
  exact ⟨rfl, rfl⟩

def c8Resp : OrigResponse :=
  ⟨some "hello. world".data, none, none, some "sum".data, "dump".data⟩

def c8Prefs : UserPrefs := ⟨"visual", 4/5, "high"⟩

/-- Witness for C8: a fresh engine and the engine state left behind by an
earlier adaptation produce the same ordered output blocks at different
instants. -/
theorem c8_determinism_witness :
    (adaptResponse initEngine 0 1 c8Resp c8Prefs).1.adapted_content =
      (adaptResponse (adaptResponse initEngine 5 7 c8Resp c8Prefs).2 2 3
        c8Resp c8Prefs).1.adapted_content :=
  (c8_determinism initEngine ((adaptResponse initEngine 5 7 c8Resp c8Prefs).2) 0 1 2 3
    c8Resp c8Prefs rfl).1

/-! ### `advanced_edge_case_handler.py` -/

/-- The `EdgeCaseType` enum. -/
inductive EdgeCaseType where
  | empty_input
  | malformed_data
  | conflicting_preferences
  | missing_content
  | performance_degradation
  | invalid_configuration
  | network_failure
  | parsing_error
  | rendering_failure
  | unknown_format
deriving DecidableEq, Repr

def EdgeCaseType.value : EdgeCaseType → String
  | .empty_input => "empty_input"
  | .malformed_data => "malformed_data"
  | .conflicting_preferences => "conflicting_preferences"
  | .missing_content => "missing_content"
  | .performance_degradation => "performance_degradation"
  | .invalid_configuration => "invalid_configuration"
  | .network_failure => "network_failure"
  | .parsing_error => "parsing_error"
  | .rendering_failure => "rendering_failure"
  | .unknown_format => "unknown_format"

/-- The `FallbackStrategy` enum. -/
inductive FallbackStrategy where
  | default_mixed
  | content_analysis
  | historical_preference
  | graceful_degradation
  | error_display
  | minimal_response
deriving DecidableEq, Repr

def FallbackStrategy.value : FallbackStrategy → String
  | .default_mixed => "default_mixed"
  | .content_analysis => "content_analysis"
  | .historical_preference => "historical_preference"
  | .graceful_degradation => "graceful_degradation"
  | .error_display => "error_display"
  | .minimal_response => "minimal_response"

/-- The `EdgeCaseRule` dataclass.  Its `detection_conditions` (a list of
request-dependent boolean closures, used only by the detection pass) are not
needed by the claims about the handling pass and are not modelled. -/
structure EdgeCaseRule where
  case_type : EdgeCaseType
  fallback_strategy : FallbackStrategy
  priority : ℤ
  recovery_actions : List String
  user_message : String
deriving DecidableEq, Repr

/-- The dictionary shape returned by the `_fallback_*` strategy handlers. -/
structure FallbackPayload where
  preference : String
  confidence : ℚ
  intensity : String
  reasoning : String
  keywordsVisual : List (List Char)
  keywordsText : List (List Char)
  specific_requests : List (List Char)
  fallback_preference : String
  metadata : MetaBag
deriving DecidableEq, Repr

/-- `_fallback_minimal_response`. -/
def fallbackMinimalResponse (rule : EdgeCaseRule) : FallbackPayload :=
  ⟨"mixed", 3/10, "low", "Minimal fallback response applied", [], [], [], "mixed",
   ⟨[("fallback_strategy", .s "minimal_response".data),
     ("minimal_mode", .b true),
     ("original_issue", .s rule.case_type.value.data)]⟩⟩

/-- `_apply_fallback_strategy`: dispatch to the handler for the strategy,
falling back to `_fallback_minimal_response` when the handler raises.  The
handler behaviour is a parameter into `Except Unit _`, modelling the fault
injection the claim speaks about ("if one throws"): the concrete handlers in
the source are total functions. -/
def applyFallbackStrategy (handlers : FallbackStrategy → Except Unit FallbackPayload)
    (strategy : FallbackStrategy) (rule : EdgeCaseRule) : FallbackPayload :=
  match handlers strategy with
  | .ok p => p
  | .error _ => fallbackMinimalResponse rule

/-- One step of `_execute_recovery_actions`: the four recognized actions are
logging/caching side effects that always succeed, and an unrecognized action
only logs a warning without clearing the success flag (only an exception
inside an action clears it, and none of the modelled actions raises). -/
def recoveryActionOk (a : String) : Bool :=
  if a = "cache_fallback" then true
  else if a = "log_incident" then true
  else if a = "notify_monitoring" then true
  else if a = "cleanup_data" then true
  else true

/-- `_execute_recovery_actions`. -/
def executeRecoveryActions (actions : List String) : Bool :=
  actions.foldl (fun ok a => ok && recoveryActionOk a) true

/-- The fields of the dictionary returned by `_handle_single_edge_case`
(the diagnostic `metadata` sub-dictionary carries copies not referenced by
the claims). -/
structure HandlingResult where
  handled : Bool
  fallback_strategy : String
  recovery_successful : Bool
  user_message : String
  fallback_data : FallbackPayload
deriving DecidableEq, Repr

/-- `_handle_single_edge_case` for a detected rule: apply the fallback
strategy (whose own exceptions are caught inside `_apply_fallback_strategy`),
execute the recovery actions, and assemble the result.  The outer `except`
branch of the source is unreachable here since every modelled step is
total. -/
def handleSingleEdgeCase (rule : EdgeCaseRule)
    (handlers : FallbackStrategy → Except Unit FallbackPayload) : HandlingResult :=
  ⟨true, rule.fallback_strategy.value,
   executeRecoveryActions rule.recovery_actions,
   rule.user_message,
   applyFallbackStrategy handlers rule.fallback_strategy rule⟩

/-- The `EMPTY_INPUT` entry of `_initialize_edge_case_rules`. -/
def emptyInputRule : EdgeCaseRule :=
  ⟨.empty_input, .default_mixed, 8, ["log_incident", "cache_fallback"],
   "No preferences specified. Using balanced layout."⟩

/-! ### Claim C4 -/

/-- C4 (amended): whenever a strategy handler raises, the resolver catches the
exception inside `_apply_fallback_strategy` and still returns a result — the
fallback payload is the `minimal_response` payload and no exception reaches
the caller — but `recovery_successful` is computed from the rule's recovery
actions (true when they all succeed), not forced to `false` by the handler
failure, and the reported strategy name stays the rule's own strategy. -/
theorem c4_handler_exception_flow (rule : EdgeCaseRule)
    (handlers : FallbackStrategy → Except Unit FallbackPayload)
    (h : handlers rule.fallback_strategy = .error ()) :
    (handleSingleEdgeCase rule handlers).fallback_data = fallbackMinimalResponse rule ∧
    (handleSingleEdgeCase rule handlers).handled = true ∧
    (handleSingleEdgeCase rule handlers).fallback_strategy = rule.fallback_strategy.value ∧
    (handleSingleEdgeCase rule handlers).recovery_successful =
      executeRecoveryActions rule.recovery_actions := by
  unfold handleSingleEdgeCase applyFallbackStrategy
  rw [h]
  exact ⟨rfl, rfl, rfl, rfl⟩

/-- A fault-injected handler set in which every strategy raises. -/
def failAllHandlers : FallbackStrategy → Except Unit FallbackPayload := fun _ => .error ()

/-- Witness for C4 (amended): the empty-input rule with its handler raising. -/
theorem c4_handler_exception_flow_witness :
    (handleSingleEdgeCase emptyInputRule failAllHandlers).fallback_data =
      fallbackMinimalResponse emptyInputRule ∧
    (handleSingleEdgeCase emptyInputRule failAllHandlers).handled = true ∧
    (handleSingleEdgeCase emptyInputRule failAllHandlers).fallback_strategy =
      FallbackStrategy.default_mixed.value ∧
    (handleSingleEdgeCase emptyInputRule failAllHandlers).recovery_successful =
      executeRecoveryActions emptyInputRule.recovery_actions :=
  c4_handler_exception_flow emptyInputRule failAllHandlers rfl

/-- C4 counterexample: with the empty-input rule and a raising handler, the
result does carry the minimal_response payload, but `recovery_successful` is
`true` (the rule's recovery actions succeed), not `false` as claimed. -/
theorem c4_recovery_flag_counterexample :
    (handleSingleEdgeCase emptyInputRule failAllHandlers).fallback_data =
      fallbackMinimalResponse emptyInputRule ∧
    (handleSingleEdgeCase emptyInputRule failAllHandlers).recovery_successful = true := by
  exact ⟨rfl, by decide⟩

/-! ### Substring lemmas for claim C9 -/

theorem isPrefixOf_append_ext (p t u : List Char) (h : p.isPrefixOf t = true) :
    p.isPrefixOf (t ++ u) = true := by
  induction p generalizing t with
  | nil => cases t ++ u <;> rfl
  | cons a p ih =>
    cases t with
    | nil => simp [List.isPrefixOf] at h
    | cons b t =>
      simp only [List.isPrefixOf, Bool.and_eq_true, beq_iff_eq] at h
      simp only [List.cons_append, List.isPrefixOf, Bool.and_eq_true, beq_iff_eq]
      exact ⟨h.1, ih t h.2⟩

theorem isPrefixOf_length_le (p t : List Char) (h : p.isPrefixOf t = true) :
    p.length ≤ t.length := by
  induction p generalizing t with
  | nil => simp
  | cons a p ih =>
    cases t with
    | nil => simp [List.isPrefixOf] at h
    | cons b t =>
      simp only [List.isPrefixOf, Bool.and_eq_true] at h
      simpa using ih t h.2

theorem isPrefixOf_append_split (p v u : List Char) (h : p.isPrefixOf (v ++ u) = true) :
    p.isPrefixOf v = true ∨
      (v.length < p.length ∧ (p.drop v.length).isPrefixOf u = true) := by
  induction v generalizing p with
  | nil =>
    cases p with
    | nil => exact Or.inl rfl
    | cons a p => exact Or.inr ⟨by simp, by simpa using h⟩
  | cons b v ih =>
    cases p with
    | nil => exact Or.inl rfl
    | cons a p =>
      simp only [List.cons_append, List.isPrefixOf, Bool.and_eq_true, beq_iff_eq] at h
      rcases ih p h.2 with h3 | ⟨h4, h5⟩
      · exact Or.inl (by
          simp only [List.isPrefixOf, Bool.and_eq_true, beq_iff_eq]
          exact ⟨h.1, h3⟩)
      · refine Or.inr ⟨by simpa using Nat.succ_lt_succ h4, ?_⟩
        simpa using h5

theorem isPrefixOf_append_cons (p v : List Char) (m : Char) (u : List Char)
    (hm : m ∉ p) (h : p.isPrefixOf (v ++ m :: u) = true) : p.isPrefixOf v = true := by
  rcases isPrefixOf_append_split p v (m :: u) h with h1 | ⟨h2, h3⟩
  · exact h1
  · exfalso
    cases hd : p.drop v.length with
    | nil =>
      rw [hd] at h3
      have : p.length - v.length = 0 := by
        have := congrArg List.length hd
        simpa using this
      omega
    | cons c q =>
      rw [hd] at h3
      simp only [List.isPrefixOf, Bool.and_eq_true, beq_iff_eq] at h3
      apply hm
      rw [← h3.1]
      exact (List.drop_subset v.length p) (by rw [hd] ; exact List.mem_cons_self c q)

theorem drop_append_le (x u : List Char) (n : ℕ) (h : n ≤ x.length) :
    (x ++ u).drop n = x.drop n ++ u := by
  induction x generalizing n with
  | nil =>
    have : n = 0 := by simpa using h
    subst this
    rfl
  | cons c x ih =>
    cases n with
    | zero => rfl
    | succ m =>
      simp only [List.cons_append, List.drop_succ_cons]
      exact ih m (by simpa using h)

theorem occursIn_nil_left (t : List Char) : occursIn [] t = true := by
  cases t with
  | nil => rfl
  | cons c t => simp [occursIn, List.isPrefixOf]

theorem occursIn_of_isPrefixOf (p t : List Char) (h : p.isPrefixOf t = true) :
    occursIn p t = true := by
  cases t with
  | nil =>
    cases p with
    | nil => rfl
    | cons a q => simp [List.isPrefixOf] at h
  | cons c t => simp [occursIn, h]

theorem occursIn_append_left (p t u : List Char) (h : occursIn p t = true) :
    occursIn p (t ++ u) = true := by
  induction t with
  | nil =>
    have hp : p = [] := by simpa [occursIn, List.isEmpty_iff] using h
    subst hp
    exact occursIn_nil_left u
  | cons c t ih =>
    simp only [occursIn, Bool.or_eq_true] at h
    rw [List.cons_append]
    simp only [occursIn, Bool.or_eq_true]
    rcases h with h | h
    · exact Or.inl (isPrefixOf_append_ext p (c :: t) u h)
    · exact Or.inr (ih h)

theorem occursIn_append_right (p t u : List Char) (h : occursIn p u = true) :
    occursIn p (t ++ u) = true := by
  induction t with
  | nil => exact h
  | cons c t ih =>
    rw [List.cons_append]
    simp only [occursIn, Bool.or_eq_true]
    exact Or.inr ih

theorem occursIn_split (w a u : List Char) (h : occursIn w (a ++ u) = true) :
    occursIn w a = true ∨ occursIn w u = true ∨
      ∃ n, 0 < n ∧ n < w.length ∧ (w.drop n).isPrefixOf u = true := by
  induction a with
  | nil => exact Or.inr (Or.inl h)
  | cons c a ih =>
    rw [List.cons_append] at h
    simp only [occursIn, Bool.or_eq_true] at h
    rcases h with h | h
    · rcases isPrefixOf_append_split w (c :: a) u h with h1 | ⟨h2, h3⟩
      · exact Or.inl (occursIn_of_isPrefixOf _ _ h1)
      · exact Or.inr (Or.inr ⟨(c :: a).length, by simp, h2, h3⟩)
    · rcases ih h with h1 | h1 | h1
      · refine Or.inl ?_
        simp only [occursIn, Bool.or_eq_true]
        exact Or.inr h1
      · exact Or.inr (Or.inl h1)
      · exact Or.inr (Or.inr h1)

/-! ### Monotonicity of the scores under appending text -/

theorem seqMatch_nil_nil (u : List Char) : seqMatch [] [] u = true := by
  cases u with
  | nil => rfl
  | cons c t =>
    simp only [seqMatch, Bool.or_eq_true, Bool.and_eq_true]
    exact Or.inl ⟨rfl, occursIn_nil_left _⟩

theorem seqMatch_append (p q t u : List Char) (h : seqMatch p q t = true) :
    seqMatch p q (t ++ u) = true := by
  induction t with
  | nil =>
    simp only [seqMatch, Bool.and_eq_true, List.isEmpty_iff] at h
    rw [h.1, h.2]
    exact seqMatch_nil_nil u
  | cons c t ih =>
    simp only [seqMatch, Bool.or_eq_true, Bool.and_eq_true] at h
    rw [List.cons_append]
    simp only [seqMatch, Bool.or_eq_true, Bool.and_eq_true]
    rcases h with ⟨h1, h2⟩ | h
    · refine Or.inl ⟨isPrefixOf_append_ext p (c :: t) u h1, ?_⟩
      have hlen : p.length ≤ (c :: t).length := isPrefixOf_length_le p (c :: t) h1
      rw [show c :: (t ++ u) = (c :: t) ++ u from rfl, drop_append_le (c :: t) u p.length hlen]
      exact occursIn_append_left _ _ _ h2
    · exact Or.inr (ih h)

theorem pairIndicated_append (ind kw t u : List Char) (h : pairIndicated ind kw t = true) :
    pairIndicated ind kw (t ++ u) = true := by
  unfold pairIndicated at h ⊢
  simp only [Bool.or_eq_true] at h ⊢
  rcases h with h | h
  · exact Or.inl (seqMatch_append _ _ _ _ h)
  · exact Or.inr (seqMatch_append _ _ _ _ h)

theorem hitScore_mono (tbl : List (List Char)) (wt : ℕ) (t u : List Char) :
    hitScore tbl wt t ≤ hitScore tbl wt (t ++ u) := by
  unfold hitScore
  apply List.sum_le_sum
  intro kw _
  by_cases h : occursIn kw t = true
  · rw [if_pos h, if_pos (occursIn_append_left _ _ _ h)]
  · rw [if_neg h]
    exact Nat.zero_le _

theorem countPairs_mono (inds kws : List (List Char)) (t u : List Char) :
    countPairs inds kws t ≤ countPairs inds kws (t ++ u) := by
  unfold countPairs
  apply List.sum_le_sum
  intro ind _
  apply List.sum_le_sum
  intro kw _
  by_cases h : pairIndicated ind kw t = true
  · rw [if_pos h, if_pos (pairIndicated_append _ _ _ _ h)]
  · rw [if_neg h]
    exact Nat.zero_le _

theorem posCount_mono (t u : List Char) : posCount t ≤ posCount (t ++ u) :=
  Nat.add_le_add (countPairs_mono _ _ t u) (countPairs_mono _ _ t u)

theorem kwVisualScore_mono (t u : List Char) : kwVisualScore t ≤ kwVisualScore (t ++ u) :=
  Nat.add_le_add (hitScore_mono _ _ t u) (hitScore_mono _ _ t u)

theorem kwTextScore_mono (t u : List Char) : kwTextScore t ≤ kwTextScore (t ++ u) :=
  Nat.add_le_add (hitScore_mono _ _ t u) (hitScore_mono _ _ t u)

theorem phraseVisualScore_mono (t u : List Char) :
    phraseVisualScore t ≤ phraseVisualScore (t ++ u) := hitScore_mono _ _ t u

theorem phraseTextScore_mono (t u : List Char) :
    phraseTextScore t ≤ phraseTextScore (t ++ u) := hitScore_mono _ _ t u

theorem rawVisual_mono (t u : List Char) : rawVisual t ≤ rawVisual (t ++ u) := by
  rw [rawVisual_eq, rawVisual_eq]
  have h1 := kwVisualScore_mono t u
  have h2 := phraseVisualScore_mono t u
  have h3 := posCount_mono t u
  exact_mod_cast Nat.add_le_add (Nat.add_le_add h1 h2) h3

theorem rawText_mono (t u : List Char) : rawText t ≤ rawText (t ++ u) := by
  rw [rawText_eq, rawText_eq]
  have h1 := kwTextScore_mono t u
  have h2 := phraseTextScore_mono t u
  exact_mod_cast Nat.add_le_add h1 h2

theorem rawVisual_nonneg (t : List Char) : (0 : ℤ) ≤ rawVisual t := by
  rw [rawVisual_eq]
  exact Int.natCast_nonneg _

theorem rawText_nonneg (t : List Char) : (0 : ℤ) ≤ rawText t := by
  rw [rawText_eq]
  exact Int.natCast_nonneg _

theorem intensityScore_mono (t u : List Char) : intensityScore t ≤ intensityScore (t ++ u) := by
  unfold intensityScore
  exact Nat.add_le_add (Nat.add_le_add (hitScore_mono _ _ t u) (hitScore_mono _ _ t u))
    (hitScore_mono _ _ t u)

theorem intensityMult_eq (c : List Char) :
    intensityMult c =
      if 6 ≤ intensityScore c then 3/2
      else if 3 ≤ intensityScore c then 1 else 7/10 := by
  unfold intensityMult intensityMultOf intensityLevel
  by_cases h6 : 6 ≤ intensityScore c
  · simp [h6]
  · by_cases h3 : 3 ≤ intensityScore c
    · simp [h6, h3]
    · simp [h6, h3]

theorem intensityMult_mono (t u : List Char) : intensityMult t ≤ intensityMult (t ++ u) := by
  have hs := intensityScore_mono t u
  rw [intensityMult_eq, intensityMult_eq]
  split_ifs <;> try norm_num
  all_goals omega

theorem hasNeg_append_left (t u : List Char) (h : hasNeg t = true) :
    hasNeg (t ++ u) = true := by
  unfold hasNeg at h ⊢
  rcases List.any_eq_true.mp h with ⟨w, hw, hocc⟩
  exact List.any_eq_true.mpr ⟨w, hw, occursIn_append_left _ _ _ hocc⟩

/-- Appending `u` introduces no new negation word: `w` neither occurs in `u`
nor straddles into `u` via one of its proper suffixes. -/
def negSafeB (w u : List Char) : Bool :=
  !(occursIn w u) &&
    ((List.range w.length).all fun n => n = 0 || !((w.drop n).isPrefixOf u))

theorem hasNeg_transfer (c u : List Char)
    (hs : ∀ w ∈ negationWords, negSafeB w u = true)
    (h : hasNeg (c ++ u) = true) : hasNeg c = true := by
  unfold hasNeg at h ⊢
  rcases List.any_eq_true.mp h with ⟨w, hw, hocc⟩
  have hsafe := hs w hw
  simp only [negSafeB, Bool.and_eq_true, Bool.not_eq_true'] at hsafe
  rcases occursIn_split w c u hocc with h1 | h1 | ⟨n, hn0, hnlen, hpre⟩
  · exact List.any_eq_true.mpr ⟨w, hw, h1⟩
  · rw [hsafe.1] at h1
    exact absurd h1 (by simp)
  · exfalso
    have hall := List.all_eq_true.mp hsafe.2 n (List.mem_range.mpr hnlen)
    simp only [Bool.or_eq_true, decide_eq_true_eq, Bool.not_eq_true'] at hall
    rcases hall with h0 | hfalse
    · omega
    · rw [hpre] at hfalse
      simp at hfalse


theorem visualAdjusted_mono_append (t u : List Char)
    (hneg : hasNeg (t ++ u) = true → hasNeg t = true) :
    visualAdjusted t ≤ visualAdjusted (t ++ u) := by
  have him := intensityMult_mono t u
  have him7 := intensityMult_ge t
  have him7u := intensityMult_ge (t ++ u)
  unfold visualAdjusted
  by_cases h : hasNeg t = true
  · rw [if_pos h, if_pos (hasNeg_append_left t u h)]
    have h1 : (rawText t : ℚ) ≤ (rawText (t ++ u) : ℚ) := by exact_mod_cast rawText_mono t u
    have h2 : (0 : ℚ) ≤ (rawText t : ℚ) := by exact_mod_cast rawText_nonneg t
    have h3 : (0 : ℚ) ≤ (rawText (t ++ u) : ℚ) := by exact_mod_cast rawText_nonneg (t ++ u)
    have hmul : (rawText t : ℚ) * intensityMult t ≤
        (rawText (t ++ u) : ℚ) * intensityMult (t ++ u) :=
      mul_le_mul h1 him (by linarith) h3
    linarith
  · by_cases h2 : hasNeg (t ++ u) = true
    · exact absurd (hneg h2) h
    · rw [if_neg h, if_neg h2]
      have h1 : (rawVisual t : ℚ) ≤ (rawVisual (t ++ u) : ℚ) := by
        exact_mod_cast rawVisual_mono t u
      have h3 : (0 : ℚ) ≤ (rawVisual (t ++ u) : ℚ) := by
        exact_mod_cast rawVisual_nonneg (t ++ u)
      exact mul_le_mul h1 him (by linarith) h3

/-! ### Distribution of `_clean_input` over `text ++ " " ++ keyword` -/

theorem wsFree_dropWhile (y : List Char) (hy : ∀ c ∈ y, wsB c = false) :
    y.dropWhile wsB = y := by
  cases y with
  | nil => rfl
  | cons c t =>
    rw [List.dropWhile_cons, hy c (List.mem_cons_self c t)]
    simp

theorem collapseAux_flag_head (y : List Char) (hy : ∀ c ∈ y, wsB c = false) :
    collapseAux true y = collapseAux false y := by
  cases y with
  | nil => rfl
  | cons c t => simp [collapseAux, hy c (List.mem_cons_self c t)]

theorem collapseAux_wsFree (y : List Char) (hy : ∀ c ∈ y, wsB c = false) :
    collapseAux false y = y := by
  induction y with
  | nil => rfl
  | cons c t ih =>
    have hc := hy c (List.mem_cons_self c t)
    simp only [collapseAux, hc, Bool.false_eq_true, if_false]
    rw [ih (fun d hd => hy d (List.mem_cons_of_mem c hd))]

theorem collapseAux_run_sep (y : List Char) (hy : ∀ c ∈ y, wsB c = false) :
    ∀ w : List Char, (∀ c ∈ w, wsB c = true) → ∀ prev : Bool,
      collapseAux prev (w ++ ' ' :: y) =
        if prev then collapseAux false y else ' ' :: collapseAux false y := by
  intro w
  induction w with
  | nil =>
    intro _ prev
    have hsp : wsB ' ' = true := rfl
    simp only [List.nil_append, collapseAux, hsp, if_true]
    rw [collapseAux_flag_head y hy]
  | cons d w ih =>
    intro hw prev
    have hd : wsB d = true := hw d (List.mem_cons_self d w)
    have ih2 := ih (fun c hc => hw c (List.mem_cons_of_mem d hc)) true
    simp only [List.cons_append, collapseAux, hd, if_true, List.append_eq]
    rw [ih2]
    cases prev <;> simp

theorem collapseAux_main (y : List Char) (hy : ∀ c ∈ y, wsB c = false)
    (w : List Char) (hw : ∀ c ∈ w, wsB c = true) :
    ∀ b : List Char, (∀ c, b.getLast? = some c → wsB c = false) →
      ∀ prev : Bool, (b = [] → prev = false) →
        collapseAux prev (b ++ (w ++ ' ' :: y)) =
          collapseAux prev b ++ ' ' :: collapseAux false y := by
  intro b
  induction b with
  | nil =>
    intro _ prev hprev
    rw [hprev rfl, List.nil_append, collapseAux_run_sep y hy w hw false]
    rfl
  | cons c b ih =>
    intro hlast prev _
    by_cases hc : wsB c = true
    · have hb : b ≠ [] := by
        intro hbnil
        subst hbnil
        have h1 := hlast c rfl
        rw [hc] at h1
        exact absurd h1 (by simp)
      have hlast2 : ∀ d, b.getLast? = some d → wsB d = false := by
        intro d hd
        apply hlast
        cases b with
        | nil => exact absurd rfl hb
        | cons e b2 =>
          rw [List.getLast?_cons_cons]
          exact hd
      have ihtrue := ih hlast2 true (fun hbnil => absurd hbnil hb)
      simp only [List.cons_append, collapseAux, hc, if_true, List.append_eq]
      rw [ihtrue]
      cases prev <;> simp
    · have hlast2 : ∀ d, b.getLast? = some d → wsB d = false := by
        intro d hd
        apply hlast
        cases b with
        | nil => simp at hd
        | cons e b2 =>
          rw [List.getLast?_cons_cons]
          exact hd
      have ihfalse := ih hlast2 false (fun _ => rfl)
      simp only [List.cons_append, collapseAux, hc, Bool.false_eq_true, if_false,
        List.append_eq]
      rw [ihfalse]

theorem trimRight_append_sep (z y : List Char) (hy : y ≠ [])
    (hyw : ∀ c ∈ y, wsB c = false) :
    trimRight (z ++ ' ' :: y) = z ++ ' ' :: y := by
  unfold trimRight
  suffices h : (z ++ ' ' :: y).reverse.dropWhile wsB = (z ++ ' ' :: y).reverse by
    rw [h, List.reverse_reverse]
  cases hyr : y.reverse with
  | nil => exact absurd (List.reverse_eq_nil_iff.mp hyr) hy
  | cons c r =>
    have hcy : c ∈ y := by
      rw [← List.mem_reverse, hyr]
      exact List.mem_cons_self c r
    have hrev : (z ++ ' ' :: y).reverse = c :: (r ++ ' ' :: z.reverse) := by
      rw [List.reverse_append, List.reverse_cons, hyr]
      simp
    rw [hrev, List.dropWhile_cons, hyw c hcy]
    simp

theorem head_dropWhile_ws (l : List Char) (c : Char)
    (h : (l.dropWhile wsB).head? = some c) : wsB c = false := by
  induction l with
  | nil => simp at h
  | cons a t ih =>
    rw [List.dropWhile_cons] at h
    by_cases ha : wsB a = true
    · rw [if_pos ha] at h
      exact ih h
    · rw [if_neg ha] at h
      simp only [List.head?_cons, Option.some.injEq] at h
      simp only [Bool.not_eq_true] at ha
      rw [← h]
      exact ha

theorem trimRight_last (z : List Char) :
    ∀ c, (trimRight z).getLast? = some c → wsB c = false := by
  intro c hc
  unfold trimRight at hc
  rw [List.getLast?_reverse] at hc
  exact head_dropWhile_ws _ _ hc

theorem trimLeft_decomp (x : List Char) :
    ∃ w, trimLeft x = trimRight (trimLeft x) ++ w ∧ (∀ c ∈ w, wsB c = true) := by
  refine ⟨((trimLeft x).reverse.takeWhile wsB).reverse, ?_, ?_⟩
  · unfold trimRight
    calc trimLeft x = (trimLeft x).reverse.reverse := (List.reverse_reverse _).symm
    _ = (((trimLeft x).reverse.takeWhile wsB) ++ ((trimLeft x).reverse.dropWhile wsB)).reverse := by
        rw [List.takeWhile_append_dropWhile]
    _ = ((trimLeft x).reverse.dropWhile wsB).reverse ++
          ((trimLeft x).reverse.takeWhile wsB).reverse := by
        rw [List.reverse_append]
  · intro c hc
    rw [List.mem_reverse] at hc
    exact List.mem_takeWhile_imp hc

theorem replaceAux_nil (pat rep : List Char) (k : ℕ) : replaceAux pat rep k [] = [] := by
  cases k <;> rfl

theorem replaceAux_append_sep (pat rep : List Char) (hpat : pat ≠ []) (hsp : ' ' ∉ pat)
    (y : List Char) :
    ∀ (a : List Char) (k : ℕ), k ≤ a.length →
      replaceAux pat rep k (a ++ ' ' :: y) =
        replaceAux pat rep k a ++ ' ' :: replaceAux pat rep 0 y := by
  intro a
  induction a with
  | nil =>
    intro k hk
    have hk0 : k = 0 := Nat.le_zero.mp hk
    subst hk0
    have hnp : pat.isPrefixOf (' ' :: y) = false := by
      cases pat with
      | nil => exact absurd rfl hpat
      | cons p0 ps =>
        have hp0 : ¬ p0 = ' ' := fun he => hsp (he ▸ List.mem_cons_self p0 ps)
        simp [List.isPrefixOf, hp0]
    rw [List.nil_append]
    simp only [replaceAux, hnp, Bool.false_eq_true, if_false, replaceAux_nil]
    rfl
  | cons c a ih =>
    intro k hk
    cases k with
    | zero =>
      by_cases hp : pat.isPrefixOf (c :: a ++ ' ' :: y) = true
      · have hpv : pat.isPrefixOf (c :: a) = true :=
          isPrefixOf_append_cons pat (c :: a) ' ' y hsp (by simpa using hp)
        have hlen : pat.length - 1 ≤ a.length := by
          have := isPrefixOf_length_le pat (c :: a) hpv
          simp at this
          omega
        rw [List.cons_append]
        simp only [replaceAux]
        rw [if_pos (by simpa using hp), if_pos hpv, ih (pat.length - 1) hlen,
          List.append_assoc]
      · have hpv : pat.isPrefixOf (c :: a) = false := by
          by_contra hcon
          simp only [Bool.not_eq_false] at hcon
          exact hp (by
            have := isPrefixOf_append_ext pat (c :: a) (' ' :: y) hcon
            simpa using this)
        rw [List.cons_append]
        simp only [replaceAux]
        rw [if_neg (by simpa using hp), if_neg (by simp [hpv]), ih 0 (Nat.zero_le _)]
        rfl
    | succ m =>
      rw [List.cons_append]
      simp only [replaceAux]
      exact ih m (by simpa using hk)

theorem foldl_replace_sep (ps : List (List Char × List Char))
    (hs : ∀ p ∈ ps, p.1 ≠ [] ∧ ' ' ∉ p.1) (a y : List Char) :
    ps.foldl (fun acc p => replaceL p.1 p.2 acc) (a ++ ' ' :: y) =
      ps.foldl (fun acc p => replaceL p.1 p.2 acc) a ++ ' ' ::
        ps.foldl (fun acc p => replaceL p.1 p.2 acc) y := by
  induction ps generalizing a y with
  | nil => rfl
  | cons p ps ih =>
    simp only [List.foldl_cons]
    have hstep : replaceL p.1 p.2 (a ++ ' ' :: y) =
        replaceL p.1 p.2 a ++ ' ' :: replaceL p.1 p.2 y :=
      replaceAux_append_sep p.1 p.2 (hs p (List.mem_cons_self p ps)).1
        (hs p (List.mem_cons_self p ps)).2 y a 0 (Nat.zero_le _)
    rw [hstep]
    exact ih (fun q hq => hs q (List.mem_cons_of_mem p hq)) _ _

theorem replaceChain_append_sep (a y : List Char) :
    replaceChain (a ++ ' ' :: y) = replaceChain a ++ ' ' :: replaceChain y := by
  unfold replaceChain
  exact foldl_replace_sep abbrevPairs (by decide) a y

theorem cleanL_append_sep (x y : List Char) (hy : y ≠ [])
    (hyw : ∀ c ∈ y, wsB c = false) (hylow : lowerL y = y)
    (hx : stripL (lowerL x) ≠ []) :
    cleanL (x ++ ' ' :: y) = cleanL x ++ ' ' :: replaceChain y := by
  unfold cleanL
  have hlow : lowerL (x ++ ' ' :: y) = lowerL x ++ ' ' :: y := by
    unfold lowerL
    rw [List.map_append, List.map_cons]
    unfold lowerL at hylow
    rw [hylow]
    rfl
  rw [hlow]
  have htl : trimLeft (lowerL x) ≠ [] := by
    intro hnil
    apply hx
    unfold stripL
    rw [hnil]
    rfl
  have h1 : trimLeft (lowerL x ++ ' ' :: y) = trimLeft (lowerL x) ++ ' ' :: y := by
    have hcond : ¬ ((lowerL x).dropWhile wsB).isEmpty = true := by
      simp only [List.isEmpty_iff]
      exact htl
    unfold trimLeft
    rw [List.dropWhile_append, if_neg hcond]
  have h2 : stripL (lowerL x ++ ' ' :: y) = trimLeft (lowerL x) ++ ' ' :: y := by
    unfold stripL
    rw [h1, trimRight_append_sep _ _ hy hyw]
  rw [h2]
  rcases trimLeft_decomp (lowerL x) with ⟨w, hw1, hw2⟩
  rw [hw1, List.append_assoc]
  have hmain := collapseAux_main y hyw w hw2 (trimRight (trimLeft (lowerL x)))
    (trimRight_last _) false (fun _ => rfl)
  unfold collapseL
  rw [hmain]
  have hcy : collapseAux false y = y := collapseAux_wsFree y hyw
  rw [hcy]
  exact replaceChain_append_sep _ y

/-! ### Monotonicity of the reported visual score in a primary keyword -/

set_option maxRecDepth 8000 in
theorem primaryVisual_facts : ∀ kd ∈ primaryVisual,
    kd ≠ [] ∧ (∀ c ∈ kd, wsB c = false) ∧ lowerL kd = kd ∧
      (∀ w ∈ negationWords, negSafeB w (' ' :: replaceChain kd) = true) := by
  decide

theorem stripL_lowerL_ne_nil (l : List Char) (h : stripL l ≠ []) :
    stripL (lowerL l) ≠ [] := by
  intro hnil
  apply h
  rw [stripL_eq_nil_iff] at hnil ⊢
  intro c hc
  have h1 := hnil (lowerC c) (List.mem_map_of_mem lowerC hc)
  rwa [wsB_lowerC] at h1

theorem stripL_append_keyword_ne_nil (x y : List Char) (hy : y ≠ [])
    (hyw : ∀ c ∈ y, wsB c = false) : stripL (x ++ ' ' :: y) ≠ [] := by
  intro hnil
  rw [stripL_eq_nil_iff] at hnil
  cases y with
  | nil => exact hy rfl
  | cons c t =>
    have hc := hnil c (by simp)
    rw [hyw c (List.mem_cons_self c t)] at hc
    exact absurd hc (by simp)

theorem halfEven_le_floor_succ (q : ℚ) : halfEven q ≤ ⌊q⌋ + 1 := by
  unfold halfEven
  split_ifs <;> omega

theorem halfEven_mono (p q : ℚ) (h : p ≤ q) : halfEven p ≤ halfEven q := by
  rcases lt_or_eq_of_le (Int.floor_le_floor h) with hf | hf
  · calc halfEven p ≤ ⌊p⌋ + 1 := halfEven_le_floor_succ p
      _ ≤ ⌊q⌋ := by omega
      _ ≤ halfEven q := halfEven_ge_floor q
  · unfold halfEven
    rw [hf]
    split_ifs <;> first | omega | linarith

theorem pyRound_mono (p q : ℚ) (h : p ≤ q) : pyRound 2 p ≤ pyRound 2 q := by
  unfold pyRound
  have h1 : p * 10 ^ 2 ≤ q * 10 ^ 2 :=
    mul_le_mul_of_nonneg_right h (by norm_num)
  have h2 := halfEven_mono _ _ h1
  have h3 : ((halfEven (p * 10 ^ 2) : ℚ)) ≤ ((halfEven (q * 10 ^ 2) : ℚ)) := by
    exact_mod_cast h2
  gcongr

theorem pyRound_nonneg (q : ℚ) (h : 0 ≤ q) : 0 ≤ pyRound 2 q := by
  unfold pyRound
  have h1 : (0 : ℚ) ≤ q * 10 ^ 2 := by positivity
  have h2 : (0 : ℤ) ≤ ⌊q * 10 ^ 2⌋ := Int.floor_nonneg.mpr h1
  have h3 := halfEven_ge_floor (q * 10 ^ 2)
  have h4 : (0 : ℚ) ≤ (halfEven (q * 10 ^ 2) : ℚ) := by exact_mod_cast le_trans h2 h3
  have h5 : (0 : ℚ) < 10 ^ 2 := by norm_num
  exact div_nonneg h4 (le_of_lt h5)

/-- C9: appending one occurrence of a primary visual keyword (separated by a
space) to any input never decreases the visual score reported by
`parse_user_preference`. -/
theorem c9_visual_score_monotone (s k : String) (hk : k.data ∈ primaryVisual) :
    (parseUserPreference s).visualScoreMeta ≤
      (parseUserPreference (s ++ " " ++ k)).visualScoreMeta := by
  obtain ⟨hknil, hkws, hklow, hksafe⟩ := primaryVisual_facts k.data hk
  have hdata : (s ++ " " ++ k).data = s.data ++ ' ' :: k.data := by
    rw [String.data_append, String.data_append, List.append_assoc]
    rfl
  have hst2 : stripL ((s ++ " " ++ k).data) ≠ [] := by
    rw [hdata]
    exact stripL_append_keyword_ne_nil s.data k.data hknil hkws
  by_cases hst : stripL s.data = []
  · simp only [parseUserPreference]
    rw [if_pos hst, if_neg hst2]
    show (0 : ℚ) ≤ pyRound 2 (visualAdjusted (cleanL ((s ++ " " ++ k).data)))
    exact pyRound_nonneg _ (visualAdjusted_nonneg _)
  · simp only [parseUserPreference]
    rw [if_neg hst, if_neg hst2]
    show pyRound 2 (visualAdjusted (cleanL s.data)) ≤
      pyRound 2 (visualAdjusted (cleanL ((s ++ " " ++ k).data)))
    apply pyRound_mono
    rw [hdata]
    have hlow : stripL (lowerL s.data) ≠ [] := stripL_lowerL_ne_nil s.data hst
    rw [cleanL_append_sep s.data k.data hknil hkws hklow hlow]
    exact visualAdjusted_mono_append _ _ (fun h => hasNeg_transfer _ _ hksafe h)

/-- Witness for C9: appending the primary keyword "chart" to "hello". -/
theorem c9_visual_score_monotone_witness :
    (parseUserPreference "hello").visualScoreMeta ≤
      (parseUserPreference ("hello" ++ " " ++ "chart")).visualScoreMeta :=
  c9_visual_score_monotone "hello" "chart" (by decide)

end TheNZT
